import Mathlib

/-!
# SimpleVector (simple_vector.h)

A shallow embedding of the `SimpleVector<Type>` class template and of the
`ArrayPtr<Type>` buffer it owns, followed by theorems about its operations.

Conventions of the embedding

* `size_t` values are natural numbers; every arithmetic step the source does on a
  `size_t` (`++size_`, `--size_`, `capacity_ * 2`, `pos_n + 1`, `i - 1`) is taken
  modulo `SIZE_MOD = 2 ^ 64`.
* The owned buffer is the list of its allocated cells.  Reading or writing a cell
  outside that list is undefined behaviour in C++ and is the fault
  `Fault.undefined_behaviour` here.
* A position argument (`Iterator pos`) is the integer `pos - begin()`, so
  `pos < begin()` reads `pos < 0` and `pos > end()` reads `pos > size_`.
* A returned iterator is either `nullptr` or the address of cell `k` of the
  vector's buffer.
* An argument passed by reference (`const Type&`, `Type&&`) is an `ArgRef`: an object
  outside the vector, or one of the vector's own cells, read where the source reads it.
-/

namespace SimpleVectorModel

/-- The number of values of `size_t` (a 64-bit unsigned integer). -/
def SIZE_MOD : Nat := 2 ^ 64

/-- What an operation can fail with. -/
inductive Fault where
  /-- The exception `std::out_of_range` thrown by `At`. -/
  | out_of_range
  /-- An access outside the allocated buffer. -/
  | undefined_behaviour
deriving DecidableEq, Repr

deriving instance DecidableEq for Except

/-- The operations of the element type `Type` that the container uses. -/
class CppType (α : Type) where
  /-- The value of the expression `Type()`. -/
  value_init : α
  /-- The content of a cell right after `new Type[n]`. -/
  default_init : α
  /-- The state an object is left in after `std::move` has been assigned from it. -/
  moved_from : α → α

/-- The element type `int`, with fresh cells read as 0. -/
instance : CppType Int := ⟨0, 0, id⟩

/-- Modelled from the spec: `ArrayPtr<Type>` of array_ptr.h, which is not among the
sources.  The spec's Owned Buffer is a contiguous block of `N` cells (the null
state when `N = 0`) with unchecked indexed access, raw pointer access and swap. -/
structure ArrayPtr (α : Type) where
  /-- The allocated cells, in address order; `[]` is the null state. -/
  cells : List α
deriving DecidableEq, Repr

namespace ArrayPtr

variable {α : Type}

/-- The states `ArrayPtr()` and `ArrayPtr(nullptr)`: no storage. -/
def null : ArrayPtr α := ⟨[]⟩

/-- The constructor `ArrayPtr(count)`: storage for `count` cells. -/
def alloc [CppType α] (count : Nat) : ArrayPtr α :=
  ⟨List.replicate count CppType.default_init⟩

/-- Reading `p[i]`; no bounds check in the source, undefined outside the block. -/
def get (p : ArrayPtr α) (i : Nat) : Except Fault α :=
  match p.cells[i]? with
  | some x => .ok x
  | none => .error .undefined_behaviour

/-- The assignment `p[i] = x`; undefined outside the block. -/
def set (p : ArrayPtr α) (i : Nat) (x : α) : Except Fault (ArrayPtr α) :=
  if i < p.cells.length then .ok ⟨p.cells.set i x⟩ else .error .undefined_behaviour

end ArrayPtr

/-- A value of type `Type*` handed back by `Insert` and `Erase`. -/
inductive Iterator where
  /-- The null pointer. -/
  | null
  /-- The address `items_.Get() + k` in a buffer that has storage. -/
  | cell (k : Nat)
deriving DecidableEq, Repr

/-- The pointer `p.Get() + k`.  `Get()` of a buffer without storage is `nullptr`,
and `nullptr + 0` is `nullptr`; in every other case the result is written `cell k`. -/
def ptr_at {α : Type} (p : ArrayPtr α) (k : Nat) : Iterator :=
  if p.cells.isEmpty ∧ k = 0 then .null else .cell k

/-- The data members of `SimpleVector<Type>`. -/
structure SimpleVector (α : Type) where
  items_ : ArrayPtr α
  size_ : Nat
  capacity_ : Nat
deriving DecidableEq, Repr

variable {α : Type}

/-- Assigns `x` to the `n` cells from index `i` on, as `std::fill` and
`std::generate` do over a pointer range. -/
def fill_cells (x : α) : ArrayPtr α → Nat → Nat → Except Fault (ArrayPtr α)
  | p, _, 0 => .ok p
  | p, i, n + 1 =>
    match p.set i x with
    | .ok q => fill_cells x q (i + 1) n
    | .error e => .error e

/-- The call `std::generate(p.Get() + first, p.Get() + last, [](){return Type();})`. -/
def generate [CppType α] (p : ArrayPtr α) (first last : Nat) : Except Fault (ArrayPtr α) :=
  if first ≤ last then fill_cells CppType.value_init p first (last - first)
  else .error .undefined_behaviour

/-- The call `std::fill(p.Get() + first, p.Get() + last, value)`. -/
def fill (p : ArrayPtr α) (first last : Nat) (value : α) : Except Fault (ArrayPtr α) :=
  if first ≤ last then fill_cells value p first (last - first)
  else .error .undefined_behaviour

/-- Assigns cells `i, i+1, ..., i+n-1` of `src` to the same cells of `dst`: the loop
`temp[i] = std::move(items_[i])` of `Resize`, and `std::move(first, last, d_first)`
of `Reserve`, and `std::copy`.  The source buffer is released or left alone right
after each of these calls, so the state of its cells is not tracked. -/
def move_cells (src : ArrayPtr α) : ArrayPtr α → Nat → Nat → Except Fault (ArrayPtr α)
  | dst, _, 0 => .ok dst
  | dst, i, n + 1 =>
    match src.get i with
    | .ok x =>
      match dst.set i x with
      | .ok d => move_cells src d (i + 1) n
      | .error e => .error e
    | .error e => .error e

/-- The loop of `std::move_backward(first, last, d_last)` inside one buffer, with
`n = last - first` steps left: `*(--d_last) = std::move(*(--last))`. -/
def move_backward_loop [CppType α] : ArrayPtr α → Nat → Nat → Nat → Except Fault (ArrayPtr α)
  | p, _, _, 0 => .ok p
  | p, last, d_last, n + 1 =>
    match p.get (last - 1) with
    | .ok x =>
      match p.set (d_last - 1) x with
      | .ok q =>
        match q.set (last - 1) (CppType.moved_from x) with
        | .ok r => move_backward_loop r (last - 1) (d_last - 1) n
        | .error e => .error e
      | .error e => .error e
    | .error e => .error e

/-- The call `std::move_backward(p.Get() + first, p.Get() + last, p.Get() + d_last)`. -/
def move_backward [CppType α] (p : ArrayPtr α) (first last d_last : Nat) :
    Except Fault (ArrayPtr α) :=
  if first ≤ last then move_backward_loop p last d_last (last - first)
  else .error .undefined_behaviour

/-- The loop of `Erase`, `for (i = ...; i < size_; ++i) items_[i - 1] = std::move(items_[i])`,
with `n` iterations left. -/
def erase_loop [CppType α] : ArrayPtr α → Nat → Nat → Except Fault (ArrayPtr α)
  | p, _, 0 => .ok p
  | p, i, n + 1 =>
    match p.get i with
    | .ok x =>
      match p.set ((i + SIZE_MOD - 1) % SIZE_MOD) x with
      | .ok q =>
        match q.set i (CppType.moved_from x) with
        | .ok r => erase_loop r ((i + 1) % SIZE_MOD) n
        | .error e => .error e
      | .error e => .error e
    | .error e => .error e

/-- An argument of type `const Type&` or `Type&&` of `PushBack` and `Insert`: what the
reference is bound to when the method is called. -/
inductive ArgRef (α : Type) where
  /-- An object with value `x` that is not a cell of the buffer of the vector the method
  is called on. -/
  | outside (x : α)
  /-- The cell `items_[j]` of the vector the method is called on, as in `v.PushBack(v[j])`. -/
  | cell (j : Nat)
deriving DecidableEq, Repr

/-- Reading through the reference at a point of the method body where the vector's buffer
is `p`.  `released` tells whether the block the reference pointed into has been released
by `Reserve` in the meantime: reading a cell of it is then a read of freed storage. -/
def read_arg (p : ArrayPtr α) (released : Bool) : ArgRef α → Except Fault α
  | .outside x => .ok x
  | .cell j => if released then .error .undefined_behaviour else p.get j

/-- The buffer after the assignment from the argument, which had value `x`: the overloads
taking `Type&&` assign from `std::move(arg)` and leave a referenced cell moved-from; the
overloads taking `const Type&` leave it as it is. -/
def release_arg [CppType α] (p : ArrayPtr α) (rvalue : Bool) (x : α) : ArgRef α → ArrayPtr α
  | .outside _ => p
  | .cell j => if rvalue then ⟨p.cells.set j (CppType.moved_from x)⟩ else p

/-- The loop of `std::equal` over two pointer ranges of the same length, with `n`
elements left: the first pair that `==` does not accept ends it with `false`. -/
def equal_loop [BEq α] (p q : ArrayPtr α) : Nat → Nat → Except Fault Bool
  | _, 0 => .ok true
  | i, n + 1 =>
    match p.get i with
    | .ok x =>
      match q.get i with
      | .ok y => if x == y then equal_loop p q (i + 1) n else .ok false
      | .error e => .error e
    | .error e => .error e

/-- The call `std::equal(p.Get(), p.Get() + n1, q.Get(), q.Get() + n2)`: ranges of
different lengths are unequal, otherwise the elements are compared in order. -/
def std_equal [BEq α] (p : ArrayPtr α) (n1 : Nat) (q : ArrayPtr α) (n2 : Nat) :
    Except Fault Bool :=
  if n1 ≠ n2 then .ok false else equal_loop p q 0 n1

/-- The loop of `std::lexicographical_compare` with `n` steps left before one of the
two ranges `[i, last1)` and `[i, last2)` is used up:
`if (*first1 < *first2) return true; if (*first2 < *first1) return false;`, and after
the loop `return (first1 == last1) && (first2 != last2)`. -/
def lexicographical_compare_loop [LT α] [DecidableRel (fun x y : α => x < y)]
    (p q : ArrayPtr α) (last1 last2 : Nat) : Nat → Nat → Except Fault Bool
  | i, 0 => .ok (decide (i = last1) && !decide (i = last2))
  | i, n + 1 =>
    match p.get i with
    | .ok x =>
      match q.get i with
      | .ok y =>
        if x < y then .ok true
        else if y < x then .ok false
        else lexicographical_compare_loop p q last1 last2 (i + 1) n
      | .error e => .error e
    | .error e => .error e

/-- The call
`std::lexicographical_compare(p.Get(), p.Get() + n1, q.Get(), q.Get() + n2)`. -/
def lexicographical_compare [LT α] [DecidableRel (fun x y : α => x < y)]
    (p : ArrayPtr α) (n1 : Nat) (q : ArrayPtr α) (n2 : Nat) : Except Fault Bool :=
  lexicographical_compare_loop p q n1 n2 0 (min n1 n2)

namespace SimpleVector

/-- The default constructor: `items_` is null, `size_ = 0`, `capacity_ = 0`. -/
def empty : SimpleVector α := ⟨ArrayPtr.null, 0, 0⟩

/-- The constructor `SimpleVector(ReserveProxyObj cap)`, with `cap.Get() = capacity_to_reserve`:
`items_(nullptr), size_(0), capacity_(cap.Get())`. -/
def with_reserve (capacity_to_reserve : Nat) : SimpleVector α :=
  ⟨ArrayPtr.null, 0, capacity_to_reserve⟩

/-- The constructor `SimpleVector(size_t size)`. -/
def with_size [CppType α] (size : Nat) : Except Fault (SimpleVector α) :=
  match generate (ArrayPtr.alloc size : ArrayPtr α) 0 size with
  | .ok p => .ok ⟨p, size, size⟩
  | .error e => .error e

/-- The constructor `SimpleVector(size_t size, const Type& value)`. -/
def with_value [CppType α] (size : Nat) (value : α) : Except Fault (SimpleVector α) :=
  match fill (ArrayPtr.alloc size : ArrayPtr α) 0 size value with
  | .ok p => .ok ⟨p, size, size⟩
  | .error e => .error e

/-- The constructor `SimpleVector(std::initializer_list<Type> init)`: `init` is copied
into a fresh buffer `temp` of `init.size()` cells, which is swapped into `items_`. -/
def of_list [CppType α] (init : List α) : Except Fault (SimpleVector α) :=
  match move_cells ⟨init⟩ (ArrayPtr.alloc init.length : ArrayPtr α) 0 init.length with
  | .ok temp => .ok ⟨temp, init.length, init.length⟩
  | .error e => .error e

/-- The copy constructor: `items_(other.size_), size_(other.size_), capacity_(other.size_)`
and `std::copy(other.begin(), other.end(), begin())`. -/
def copy [CppType α] (other : SimpleVector α) : Except Fault (SimpleVector α) :=
  match move_cells other.items_ (ArrayPtr.alloc other.size_ : ArrayPtr α) 0 other.size_ with
  | .ok p => .ok ⟨p, other.size_, other.size_⟩
  | .error e => .error e

/-- The accessor `GetSize()`. -/
def GetSize (v : SimpleVector α) : Nat := v.size_

/-- The accessor `GetCapacity()`. -/
def GetCapacity (v : SimpleVector α) : Nat := v.capacity_

/-- The accessor `IsEmpty()`. -/
def IsEmpty (v : SimpleVector α) : Bool := v.size_ == 0

/-- The iterator `begin()`: `items_.Get()`. -/
def begin_iter (v : SimpleVector α) : Iterator := ptr_at v.items_ 0

/-- The iterator `end()`: `items_.Get() + size_`. -/
def end_iter (v : SimpleVector α) : Iterator := ptr_at v.items_ v.size_

/-- The unchecked access `operator[](index)`. -/
def index (v : SimpleVector α) (i : Nat) : Except Fault α := v.items_.get i

/-- The checked access `At(index)`: what it returns or throws, and the vector after
the call. -/
def At (v : SimpleVector α) (i : Nat) : Except Fault α × SimpleVector α :=
  if i < v.size_ then (v.items_.get i, v) else (.error .out_of_range, v)

/-- The method `Clear()`. -/
def Clear (v : SimpleVector α) : SimpleVector α := { v with size_ := 0 }

/-- The method `Resize(new_size)`. -/
def Resize [CppType α] (v : SimpleVector α) (new_size : Nat) : Except Fault (SimpleVector α) :=
  if new_size ≤ v.size_ then .ok { v with size_ := new_size }
  else if new_size ≤ v.capacity_ then
    match generate v.items_ v.size_ new_size with
    | .ok p => .ok { v with items_ := p, size_ := new_size }
    | .error e => .error e
  else
    match move_cells v.items_ (ArrayPtr.alloc new_size : ArrayPtr α) 0 v.size_ with
    | .ok temp =>
      match generate temp v.size_ new_size with
      | .ok temp2 => .ok ⟨temp2, new_size, new_size⟩
      | .error e => .error e
    | .error e => .error e

/-- The method `Reserve(new_capacity)`. -/
def Reserve [CppType α] (v : SimpleVector α) (new_capacity : Nat) :
    Except Fault (SimpleVector α) :=
  if v.capacity_ < new_capacity then
    match move_cells v.items_ (ArrayPtr.alloc new_capacity : ArrayPtr α) 0 v.size_ with
    | .ok temp => .ok { v with items_ := temp, capacity_ := new_capacity }
    | .error e => .error e
  else .ok v

/-- The step shared by `PushBack` and `Insert`:
`if (capacity_ == 0 || capacity_ == size_) Reserve(std::max<size_t>(1, capacity_ * 2))`. -/
def grow_if_full [CppType α] (v : SimpleVector α) : Except Fault (SimpleVector α) :=
  if v.capacity_ = 0 ∨ v.capacity_ = v.size_ then
    Reserve v (max 1 (v.capacity_ * 2 % SIZE_MOD))
  else .ok v

/-- Whether the step `grow_if_full` replaces the buffer: `Reserve(new_capacity)` is called
with `capacity_ < new_capacity`, and the old block is released when `temp` goes out of
scope at the end of `Reserve`. -/
def grow_releases (v : SimpleVector α) : Bool :=
  decide ((v.capacity_ = 0 ∨ v.capacity_ = v.size_) ∧
    v.capacity_ < max 1 (v.capacity_ * 2 % SIZE_MOD))

/-- The method `PushBack(item)`: `rvalue = false` is the overload
`PushBack(const Type& item)` with `*end() = item`, `rvalue = true` is the overload
`PushBack(Type&& item)` with `*end() = std::move(item)`.  The reference is read after
the `Reserve` step. -/
def PushBack [CppType α] (v : SimpleVector α) (item : ArgRef α) (rvalue : Bool) :
    Except Fault (SimpleVector α) :=
  match grow_if_full v with
  | .ok w =>
    match read_arg w.items_ (grow_releases v) item with
    | .ok x =>
      match w.items_.set w.size_ x with
      | .ok p =>
        .ok { w with items_ := release_arg p rvalue x item, size_ := (w.size_ + 1) % SIZE_MOD }
      | .error e => .error e
    | .error e => .error e
  | .error e => .error e

/-- The method `Insert(pos, value)`; `pos` is `pos - begin()`.  `rvalue = false` is the
overload `Insert(Iterator pos, const Type& value)` with `*pos_res = value`,
`rvalue = true` is the overload `Insert(Iterator pos, Type&& value)` with
`*pos_res = std::move(value)`.  The reference is read after the `Reserve` step and
after `std::move_backward`. -/
def Insert [CppType α] (v : SimpleVector α) (pos : Int) (value : ArgRef α) (rvalue : Bool) :
    Except Fault (Iterator × SimpleVector α) :=
  if pos < 0 ∨ pos > (v.size_ : Int) then .ok (Iterator.null, v)
  else
    match grow_if_full v with
    | .ok w =>
      match move_backward w.items_ pos.toNat w.size_ (w.size_ + 1) with
      | .ok p =>
        match read_arg p (grow_releases v) value with
        | .ok x =>
          match p.set pos.toNat x with
          | .ok q =>
            .ok (ptr_at (release_arg q rvalue x value) pos.toNat,
              { w with items_ := release_arg q rvalue x value,
                       size_ := (w.size_ + 1) % SIZE_MOD })
          | .error e => .error e
        | .error e => .error e
      | .error e => .error e
    | .error e => .error e

/-- The method `PopBack()`.  The text written to `std::cerr` on an empty vector is not
part of the state. -/
def PopBack (v : SimpleVector α) : SimpleVector α :=
  if v.size_ ≠ 0 then { v with size_ := (v.size_ + SIZE_MOD - 1) % SIZE_MOD } else v

/-- The method `Erase(pos)`; `pos` is `pos - begin()`. -/
def Erase [CppType α] (v : SimpleVector α) (pos : Int) :
    Except Fault (Iterator × SimpleVector α) :=
  if pos < 0 ∨ pos > (v.size_ : Int) then .ok (Iterator.null, v)
  else
    match erase_loop v.items_ ((pos.toNat + 1) % SIZE_MOD)
        (v.size_ - (pos.toNat + 1) % SIZE_MOD) with
    | .ok p =>
      .ok (ptr_at p pos.toNat,
        { v with items_ := p, size_ := (v.size_ + SIZE_MOD - 1) % SIZE_MOD })
    | .error e => .error e

/-- The method `swap(other)`: `std::swap(size_, other.size_)`,
`std::swap(capacity_, other.capacity_)` and `items_.swap(other.items_)`.  Gives the
pair (this, other) after the call. -/
def swap (v other : SimpleVector α) : SimpleVector α × SimpleVector α :=
  let this1 : SimpleVector α := { v with size_ := other.size_ }
  let other1 : SimpleVector α := { other with size_ := v.size_ }
  let this2 : SimpleVector α := { this1 with capacity_ := other1.capacity_ }
  let other2 : SimpleVector α := { other1 with capacity_ := this1.capacity_ }
  ({ this2 with items_ := other2.items_ }, { other2 with items_ := this2.items_ })

/-- The move constructor `SimpleVector(SimpleVector&& other)`: the new object starts from
the default member initialisers (`items_` null, `size_ = 0`, `capacity_ = 0`) and its
three members are swapped with those of `other`.  Gives the new object and `other`
after the call. -/
def move_construct (other : SimpleVector α) : SimpleVector α × SimpleVector α :=
  swap ⟨ArrayPtr.null, 0, 0⟩ other

/-- The copy constructor as a call: the new object, and `other` (a `const&`) after it. -/
def copy_construct [CppType α] (other : SimpleVector α) :
    Except Fault (SimpleVector α × SimpleVector α) :=
  match copy other with
  | .ok w => .ok (w, other)
  | .error e => .error e

/-- The copy assignment `*this = rhs` for `this != &rhs`: `Resize(rhs.GetSize())`, then
`temp = rhs` (copy constructor) and `items_.swap(temp.items_)`. -/
def assign [CppType α] (v rhs : SimpleVector α) : Except Fault (SimpleVector α) :=
  match Resize v rhs.GetSize with
  | .ok w =>
    match copy rhs with
    | .ok temp => .ok { w with items_ := temp.items_ }
    | .error e => .error e
  | .error e => .error e

/-- The capacity `PushBack` and `Insert` leave behind: doubled (at least 1) when the
vector was full, unchanged otherwise. -/
def grown_capacity (v : SimpleVector α) : Nat :=
  if v.capacity_ = 0 ∨ v.capacity_ = v.size_ then max 1 (2 * v.capacity_) else v.capacity_

/-- The value that the argument denotes when the method is called on `v`. -/
def arg_value (v : SimpleVector α) : ArgRef α → Except Fault α
  | .outside x => .ok x
  | .cell j => v.items_.get j

/-- A caller that pushes the arguments `items` one after the other with the overload of
`PushBack` selected by `rvalue`. -/
def PushBack_all [CppType α] (rvalue : Bool) :
    SimpleVector α → List (ArgRef α) → Except Fault (SimpleVector α)
  | v, [] => .ok v
  | v, x :: xs =>
    match PushBack v x rvalue with
    | .ok w => PushBack_all rvalue w xs
    | .error e => .error e

/-- The capacity that a run of `PushBack` calls on an empty vector has reached after
`size` pushes: 0 before the first push, then the power of two with
`capacity / 2 < size <= capacity`. -/
def doubling_capacity (size capacity : Nat) : Prop :=
  (size = 0 → capacity = 0) ∧
  (0 < size → ∃ k, capacity = 2 ^ k ∧ size ≤ capacity ∧ capacity < 2 * size)

/-- The live elements `[0, size_)` of the vector, in order. -/
def toList (v : SimpleVector α) : List α := v.items_.cells.take v.size_

/-- The operator `lhs == rhs`: `std::equal(lhs.begin(), lhs.end(), rhs.begin(), rhs.end())`. -/
def operator_eq [BEq α] (lhs rhs : SimpleVector α) : Except Fault Bool :=
  std_equal lhs.items_ lhs.size_ rhs.items_ rhs.size_

/-- The operator `lhs != rhs`: `!(lhs == rhs)`. -/
def operator_ne [BEq α] (lhs rhs : SimpleVector α) : Except Fault Bool :=
  match operator_eq lhs rhs with
  | .ok r => .ok (!r)
  | .error e => .error e

/-- The operator `lhs < rhs`:
`std::lexicographical_compare(lhs.begin(), lhs.end(), rhs.begin(), rhs.end())`. -/
def operator_lt [LT α] [DecidableRel (fun x y : α => x < y)] (lhs rhs : SimpleVector α) :
    Except Fault Bool :=
  lexicographical_compare lhs.items_ lhs.size_ rhs.items_ rhs.size_

/-- The operator `lhs > rhs`: `rhs < lhs`. -/
def operator_gt [LT α] [DecidableRel (fun x y : α => x < y)] (lhs rhs : SimpleVector α) :
    Except Fault Bool :=
  operator_lt rhs lhs

/-- The operator `lhs <= rhs`: `!(lhs > rhs)`. -/
def operator_le [LT α] [DecidableRel (fun x y : α => x < y)] (lhs rhs : SimpleVector α) :
    Except Fault Bool :=
  match operator_gt lhs rhs with
  | .ok r => .ok (!r)
  | .error e => .error e

/-- The operator `lhs >= rhs`: `rhs <= lhs`. -/
def operator_ge [LT α] [DecidableRel (fun x y : α => x < y)] (lhs rhs : SimpleVector α) :
    Except Fault Bool :=
  operator_le rhs lhs

/-- The spec's ordering of two sequences: `xs` lexicographically precedes `ys` when it
is a proper prefix of `ys`, or when at the first index where they differ the element
of `xs` is the smaller one. -/
def lex_precedes [LinearOrder α] : List α → List α → Bool
  | [], [] => false
  | [], _ :: _ => true
  | _ :: _, [] => false
  | x :: xs, y :: ys => decide (x < y) || (decide (x = y) && lex_precedes xs ys)

end SimpleVector


/-! ## Buffer lemmas -/

theorem ArrayPtr.get_of_lt (p : ArrayPtr α) {i : Nat} (h : i < p.cells.length) :
    p.get i = .ok (p.cells[i]) := by
  simp [ArrayPtr.get, List.getElem?_eq_getElem h]

theorem ArrayPtr.set_of_lt (p : ArrayPtr α) {i : Nat} (x : α) (h : i < p.cells.length) :
    p.set i x = .ok ⟨p.cells.set i x⟩ := by
  simp [ArrayPtr.set, h]

theorem fill_cells_spec (x : α) : ∀ (n : Nat) (p : ArrayPtr α) (i : Nat),
    i + n ≤ p.cells.length →
    ∃ q, fill_cells x p i n = .ok q ∧ q.cells.length = p.cells.length ∧
      ∀ j, q.cells[j]? = if i ≤ j ∧ j < i + n then some x else p.cells[j]? := by
  intro n
  induction n with
  | zero =>
    intro p i _
    refine ⟨p, rfl, rfl, fun j => ?_⟩
    have : ¬ (i ≤ j ∧ j < i + 0) := by omega
    rw [if_neg this]
  | succ n ih =>
    intro p i h
    have hi : i < p.cells.length := by omega
    obtain ⟨q, hq, hl, hj⟩ := ih ⟨p.cells.set i x⟩ (i + 1) (by simp; omega)
    refine ⟨q, ?_, ?_, ?_⟩
    · simp [fill_cells, ArrayPtr.set_of_lt p x hi, hq]
    · simpa using hl
    · intro j
      rw [hj j]
      simp only [List.getElem?_set]
      by_cases h1 : i = j
      · subst h1
        have : ¬ (i + 1 ≤ i ∧ i < i + 1 + n) := by omega
        simp [this, hi]
      · by_cases h2 : i + 1 ≤ j ∧ j < i + 1 + n
        · have : i ≤ j ∧ j < i + (n + 1) := by omega
          simp [h2, this]
        · have : ¬ (i ≤ j ∧ j < i + (n + 1)) := by omega
          simp [h1, h2, this]

theorem move_cells_spec (src : ArrayPtr α) : ∀ (n : Nat) (dst : ArrayPtr α) (i : Nat),
    i + n ≤ src.cells.length → i + n ≤ dst.cells.length →
    ∃ q, move_cells src dst i n = .ok q ∧ q.cells.length = dst.cells.length ∧
      ∀ j, q.cells[j]? = if i ≤ j ∧ j < i + n then src.cells[j]? else dst.cells[j]? := by
  intro n
  induction n with
  | zero =>
    intro dst i _ _
    refine ⟨dst, rfl, rfl, fun j => ?_⟩
    have : ¬ (i ≤ j ∧ j < i + 0) := by omega
    rw [if_neg this]
  | succ n ih =>
    intro dst i hs hd
    have hi : i < src.cells.length := by omega
    have hi2 : i < dst.cells.length := by omega
    obtain ⟨q, hq, hl, hj⟩ := ih ⟨dst.cells.set i (src.cells[i])⟩ (i + 1) (by omega)
      (by simp; omega)
    refine ⟨q, ?_, ?_, ?_⟩
    · simp [move_cells, ArrayPtr.get_of_lt src hi, ArrayPtr.set_of_lt dst _ hi2, hq]
    · simpa using hl
    · intro j
      rw [hj j]
      simp only [List.getElem?_set]
      by_cases h1 : i = j
      · subst h1
        have : ¬ (i + 1 ≤ i ∧ i < i + 1 + n) := by omega
        have h3 : i ≤ i ∧ i < i + (n + 1) := by omega
        simp [this, hi2, h3, List.getElem?_eq_getElem hi]
      · by_cases h2 : i + 1 ≤ j ∧ j < i + 1 + n
        · have : i ≤ j ∧ j < i + (n + 1) := by omega
          simp [h2, this]
        · have : ¬ (i ≤ j ∧ j < i + (n + 1)) := by omega
          simp [h1, h2, this]

theorem size_t_dec {i : Nat} (h1 : 1 ≤ i) (h2 : i ≤ SIZE_MOD) :
    (i + SIZE_MOD - 1) % SIZE_MOD = i - 1 := by
  unfold SIZE_MOD at *
  norm_num at *
  omega

theorem size_t_inc {i : Nat} (h : i + 1 < SIZE_MOD) : (i + 1) % SIZE_MOD = i + 1 :=
  Nat.mod_eq_of_lt h

theorem move_backward_loop_spec [CppType α] : ∀ (n : Nat) (p : ArrayPtr α) (last : Nat),
    n ≤ last → last + 1 ≤ p.cells.length →
    ∃ q, move_backward_loop p last (last + 1) n = .ok q ∧
      q.cells.length = p.cells.length ∧
      ∀ j, q.cells[j]? =
        if last - n < j ∧ j ≤ last then p.cells[j - 1]?
        else if j = last - n ∧ 0 < n then (p.cells[j]?).map CppType.moved_from
        else p.cells[j]? := by
  intro n
  induction n with
  | zero =>
    intro p last _ _
    refine ⟨p, rfl, rfl, fun j => ?_⟩
    have h1 : ¬ (last - 0 < j ∧ j ≤ last) := by omega
    have h2 : ¬ (j = last - 0 ∧ 0 < 0) := by omega
    rw [if_neg h1, if_neg h2]
  | succ n ih =>
    intro p last hn hl
    have h1 : last - 1 < p.cells.length := by omega
    have h2 : last < p.cells.length := by omega
    have h3 : last - 1 < (p.cells.set last (p.cells[last - 1])).length := by
      simp; omega
    obtain ⟨q, hq, hlen, hj⟩ := ih
      ⟨(p.cells.set last (p.cells[last - 1])).set (last - 1)
        (CppType.moved_from (p.cells[last - 1]))⟩ (last - 1) (by omega) (by simp; omega)
    have e1 : last - 1 + 1 = last := by omega
    rw [e1] at hq
    refine ⟨q, ?_, ?_, ?_⟩
    · simp only [move_backward_loop, Nat.add_sub_cancel]
      rw [ArrayPtr.get_of_lt p h1]
      simp only [ArrayPtr.set_of_lt p _ h2]
      rw [ArrayPtr.set_of_lt _ _ h3]
      exact hq
    · simpa using hlen
    · intro j
      rw [hj j]
      simp only [List.getElem?_set, List.length_set]
      have hx : p.cells[last - 1]? = some (p.cells[last - 1]) := List.getElem?_eq_getElem h1
      split_ifs <;> first
        | rfl
        | omega
        | (subst_vars; simp [hx])

theorem erase_loop_spec [CppType α] : ∀ (n : Nat) (p : ArrayPtr α) (i : Nat),
    1 ≤ i → i + n ≤ p.cells.length → i + n < SIZE_MOD →
    ∃ q, erase_loop p i n = .ok q ∧
      q.cells.length = p.cells.length ∧
      ∀ j, q.cells[j]? =
        if i - 1 ≤ j ∧ j < i - 1 + n then p.cells[j + 1]?
        else if j = i - 1 + n ∧ 0 < n then (p.cells[j]?).map CppType.moved_from
        else p.cells[j]? := by
  intro n
  induction n with
  | zero =>
    intro p i _ _ _
    refine ⟨p, rfl, rfl, fun j => ?_⟩
    have h1 : ¬ (i - 1 ≤ j ∧ j < i - 1 + 0) := by omega
    have h2 : ¬ (j = i - 1 + 0 ∧ 0 < 0) := by omega
    rw [if_neg h1, if_neg h2]
  | succ n ih =>
    intro p i hi hl hm
    have h1 : i < p.cells.length := by omega
    have h2 : i - 1 < p.cells.length := by omega
    have h3 : i < (p.cells.set (i - 1) (p.cells[i])).length := by
      simp; omega
    have e1 : (i + SIZE_MOD - 1) % SIZE_MOD = i - 1 := size_t_dec hi (by omega)
    have e2 : (i + 1) % SIZE_MOD = i + 1 := size_t_inc (by omega)
    obtain ⟨q, hq, hlen, hj⟩ := ih
      ⟨(p.cells.set (i - 1) (p.cells[i])).set i (CppType.moved_from (p.cells[i]))⟩
      (i + 1) (by omega) (by simp; omega) (by omega)
    refine ⟨q, ?_, ?_, ?_⟩
    · simp only [erase_loop, e1, e2]
      rw [ArrayPtr.get_of_lt p h1]
      simp only [ArrayPtr.set_of_lt p _ h2]
      rw [ArrayPtr.set_of_lt _ _ h3]
      exact hq
    · simpa using hlen
    · intro j
      rw [hj j]
      simp only [List.getElem?_set, List.length_set]
      have hx : p.cells[i]? = some (p.cells[i]) := List.getElem?_eq_getElem h1
      clear hm e1 e2 hq hj ih
      split_ifs <;> first
        | rfl
        | omega
        | (subst_vars; simp [hx])
        | (have e : j + 1 = i := by omega
           rw [e, hx])

/-! ## Operation lemmas -/

namespace SimpleVector

theorem toList_getElem? (v : SimpleVector α) (j : Nat) :
    v.toList[j]? = if j < v.size_ then v.items_.cells[j]? else none := by
  simp [toList, List.getElem?_take]

theorem toList_length (v : SimpleVector α) (h : v.size_ ≤ v.items_.cells.length) :
    v.toList.length = v.size_ := by
  simp [toList, h]

theorem toList_congr (v w : SimpleVector α) (hs : w.size_ = v.size_)
    (h : ∀ j, j < v.size_ → w.items_.cells[j]? = v.items_.cells[j]?) :
    w.toList = v.toList := by
  apply List.ext_getElem?
  intro j
  rw [toList_getElem?, toList_getElem?, hs]
  split_ifs with hj
  · exact h j hj
  · rfl

theorem Reserve_noop [CppType α] (v : SimpleVector α) (n : Nat) (h : n ≤ v.capacity_) :
    Reserve v n = .ok v := by
  simp [Reserve, Nat.not_lt.mpr h]

theorem Reserve_grow [CppType α] (v : SimpleVector α) (n : Nat)
    (h1 : v.size_ ≤ v.items_.cells.length) (h2 : v.size_ ≤ v.capacity_)
    (h3 : v.capacity_ < n) :
    ∃ q : ArrayPtr α, Reserve v n = .ok ⟨q, v.size_, n⟩ ∧ q.cells.length = n ∧
      ∀ j, q.cells[j]? =
        if j < v.size_ then v.items_.cells[j]?
        else if j < n then some CppType.default_init else none := by
  obtain ⟨q, hq, hl, hj⟩ := move_cells_spec v.items_ v.size_ (ArrayPtr.alloc n) 0
    (by omega) (by simp [ArrayPtr.alloc]; omega)
  refine ⟨q, ?_, ?_, ?_⟩
  · simp [Reserve, h3, hq]
  · simpa [ArrayPtr.alloc] using hl
  · intro j
    rw [hj j]
    simp only [ArrayPtr.alloc, List.getElem?_replicate]
    split_ifs <;> first
      | rfl
      | omega

theorem grow_if_full_spec [CppType α] (v : SimpleVector α)
    (hlen : v.items_.cells.length = v.capacity_) (hsz : v.size_ ≤ v.capacity_)
    (hcap : v.capacity_ < SIZE_MOD) (hdbl : 2 * v.size_ < SIZE_MOD) :
    ∃ q : ArrayPtr α, grow_if_full v = .ok ⟨q, v.size_, grown_capacity v⟩ ∧
      q.cells.length = grown_capacity v ∧ v.size_ < grown_capacity v ∧
      grown_capacity v < SIZE_MOD ∧
      ∀ j, j < v.size_ → q.cells[j]? = v.items_.cells[j]? := by
  by_cases hfull : v.capacity_ = 0 ∨ v.capacity_ = v.size_
  · have hc2 : 2 * v.capacity_ < SIZE_MOD := by
      rcases hfull with h | h
      · omega
      · omega
    have hm : v.capacity_ * 2 % SIZE_MOD = 2 * v.capacity_ := by
      rw [Nat.mul_comm]
      exact Nat.mod_eq_of_lt hc2
    have hg : grown_capacity v = max 1 (2 * v.capacity_) := by
      simp only [grown_capacity, if_pos hfull]
    have hone : 1 < SIZE_MOD := by
      unfold SIZE_MOD
      norm_num
    obtain ⟨q, hq, hl, hj⟩ := Reserve_grow v (max 1 (2 * v.capacity_)) (by omega) hsz
      (by omega)
    refine ⟨q, ?_, ?_, ?_, ?_, ?_⟩
    · simp only [grow_if_full, if_pos hfull, hm, hg]
      exact hq
    · rw [hg]
      exact hl
    · rw [hg]
      omega
    · rw [hg]
      omega
    · intro j hlt
      rw [hj j, if_pos hlt]
  · have hg : grown_capacity v = v.capacity_ := by
      simp only [grown_capacity, if_neg hfull]
    refine ⟨v.items_, ?_, ?_, ?_, ?_, ?_⟩
    · simp only [grow_if_full, if_neg hfull, hg]
    · rw [hg]
      exact hlen
    · rw [hg]
      omega
    · rw [hg]
      exact hcap
    · intro j _
      rfl

theorem PushBack_spec [CppType α] (v : SimpleVector α) (item : α) (rvalue : Bool)
    (hlen : v.items_.cells.length = v.capacity_) (hsz : v.size_ ≤ v.capacity_)
    (hcap : v.capacity_ < SIZE_MOD) (hdbl : 2 * v.size_ < SIZE_MOD) :
    ∃ q : ArrayPtr α,
      PushBack v (.outside item) rvalue = .ok ⟨q, v.size_ + 1, grown_capacity v⟩ ∧
      q.cells.length = grown_capacity v ∧ v.size_ + 1 ≤ grown_capacity v ∧
      q.cells.take (v.size_ + 1) = v.toList ++ [item] := by
  obtain ⟨q, hq, hl, hlt, hm, hj⟩ := grow_if_full_spec v hlen hsz hcap hdbl
  have hs : v.size_ < q.cells.length := by omega
  have hinc : (v.size_ + 1) % SIZE_MOD = v.size_ + 1 := size_t_inc (by omega)
  refine ⟨⟨q.cells.set v.size_ item⟩, ?_, ?_, ?_, ?_⟩
  · simp only [PushBack, hq, read_arg, release_arg, ArrayPtr.set_of_lt q item hs, hinc]
  · simpa using hl
  · omega
  · apply List.ext_getElem?
    intro j
    have hvl : v.toList.length = v.size_ := toList_length v (by omega)
    rw [List.getElem?_take, List.getElem?_append, hvl, toList_getElem?]
    simp only [List.getElem?_set]
    by_cases c1 : j < v.size_
    · have c2 : j < v.size_ + 1 := by omega
      have c3 : ¬ (v.size_ = j) := by omega
      rw [if_pos c2, if_neg c3, if_pos c1, if_pos c1]
      exact hj j c1
    · by_cases c2 : j = v.size_
      · subst c2
        simp [hs]
      · have c3 : ¬ (j < v.size_ + 1) := by omega
        rw [if_neg c3, if_neg c1]
        have : [item].length ≤ j - v.size_ := by
          simp
          omega
        rw [List.getElem?_eq_none this]

theorem PushBack_own_element [CppType α] (v : SimpleVector α) (j : Nat)
    (hlen : v.items_.cells.length = v.capacity_) (hsz : v.size_ ≤ v.capacity_)
    (hcap : v.capacity_ < SIZE_MOD) (hdbl : 2 * v.size_ < SIZE_MOD)
    (hnf : ¬ (v.capacity_ = 0 ∨ v.capacity_ = v.size_)) (hj : j < v.size_) :
    ∃ (q : ArrayPtr α) (x : α), v.items_.cells[j]? = some x ∧
      PushBack v (.cell j) false = .ok ⟨q, v.size_ + 1, v.capacity_⟩ ∧
      q.cells.length = v.capacity_ ∧
      q.cells.take (v.size_ + 1) = v.toList ++ [x] := by
  have hjl : j < v.items_.cells.length := by omega
  have hrel : grow_releases v = false := by
    simp only [grow_releases, decide_eq_false_iff_not, not_and]
    intro hfull
    exact absurd hfull hnf
  have hgrow : grow_if_full v = .ok v := by
    simp only [grow_if_full, if_neg hnf]
  have hsame : PushBack v (.cell j) false = PushBack v (.outside (v.items_.cells[j])) false := by
    simp only [PushBack, hgrow, read_arg, hrel, ArrayPtr.get_of_lt v.items_ hjl, release_arg]
    rfl
  have hg : grown_capacity v = v.capacity_ := by
    simp only [grown_capacity, if_neg hnf]
  obtain ⟨q, hq, hql, _, hqt⟩ := PushBack_spec v (v.items_.cells[j]) false hlen hsz hcap hdbl
  rw [hg] at hq hql
  exact ⟨q, v.items_.cells[j], List.getElem?_eq_getElem hjl, hsame.trans hq, hql, hqt⟩

theorem Insert_spec [CppType α] (v : SimpleVector α) (k : Nat) (value : ArgRef α)
    (rvalue : Bool)
    (hlen : v.items_.cells.length = v.capacity_) (hsz : v.size_ ≤ v.capacity_)
    (hk : k ≤ v.size_)
    (hcap : v.capacity_ < SIZE_MOD) (hdbl : 2 * v.size_ < SIZE_MOD)
    (harg : (∃ y, value = .outside y) ∨
      (∃ j, value = .cell j ∧ j < v.size_ ∧ rvalue = false ∧
        ¬ (v.capacity_ = 0 ∨ v.capacity_ = v.size_))) :
    ∃ (q : ArrayPtr α) (x : α),
      Insert v (k : Int) value rvalue
        = .ok (Iterator.cell k, ⟨q, v.size_ + 1, grown_capacity v⟩) ∧
      q.cells.length = grown_capacity v ∧ v.size_ + 1 ≤ grown_capacity v ∧
      q.cells[k]? = some x ∧
      q.cells.take (v.size_ + 1) = v.toList.take k ++ x :: v.toList.drop k ∧
      (∀ y, value = .outside y → x = y) ∧
      (∀ j, value = .cell j → j < k → v.items_.cells[j]? = some x) := by
  obtain ⟨g, hg, hgl, hlt, hm, hgj⟩ := grow_if_full_spec v hlen hsz hcap hdbl
  obtain ⟨p, hp, hpl, hpj⟩ := move_backward_loop_spec (v.size_ - k) g v.size_
    (by omega) (by omega)
  have hkp : k < p.cells.length := by omega
  have hinc : (v.size_ + 1) % SIZE_MOD = v.size_ + 1 := size_t_inc (by omega)
  have hrange : ¬ ((k : Int) < 0 ∨ (k : Int) > (v.size_ : Int)) := by omega
  have hx : ∃ x, read_arg p (grow_releases v) value = .ok x ∧
      (∀ q : ArrayPtr α, release_arg q rvalue x value = q) ∧
      (∀ y, value = .outside y → x = y) ∧
      (∀ j, value = .cell j → j < k → v.items_.cells[j]? = some x) := by
    rcases harg with ⟨y, hy⟩ | ⟨j, hj, hjs, hr, hnf⟩
    · subst hy
      refine ⟨y, rfl, fun _ => rfl, ?_, ?_⟩
      · intro z hz
        injection hz
      · intro j hj
        cases hj
    · subst hj
      subst hr
      have hjp : j < p.cells.length := by omega
      have hrel : grow_releases v = false := by
        simp only [grow_releases, decide_eq_false_iff_not, not_and]
        intro hfull
        exact absurd hfull hnf
      refine ⟨p.cells[j], ?_, fun _ => rfl, ?_, ?_⟩
      · simp only [read_arg, hrel, ArrayPtr.get_of_lt p hjp]
        rfl
      · intro z hz
        cases hz
      · intro i hi hik
        injection hi with hi
        subst hi
        have e0 : v.size_ - (v.size_ - k) = k := by omega
        have a3 : ¬ (k < j ∧ j ≤ v.size_) := by omega
        have a4 : ¬ (j = k ∧ 0 < v.size_ - k) := by omega
        have h1 := hpj j
        rw [e0, if_neg a3, if_neg a4, hgj j hjs] at h1
        rw [← h1]
        exact List.getElem?_eq_getElem hjp
  obtain ⟨x, hread, hrelease, hout, hcell⟩ := hx
  have hptr : ptr_at (⟨p.cells.set k x⟩ : ArrayPtr α) k = Iterator.cell k := by
    have hne : (p.cells.set k x) ≠ [] := by
      intro h
      have := congrArg List.length h
      rw [List.length_set, List.length_nil] at this
      omega
    simp [ptr_at, hne]
  refine ⟨⟨p.cells.set k x⟩, x, ?_, ?_, ?_, ?_, ?_, hout, hcell⟩
  · simp only [Insert, if_neg hrange, hg, Int.toNat_ofNat, move_backward, if_pos hk, hp,
      hread, ArrayPtr.set_of_lt p x hkp, hrelease, hinc, hptr]
  · simp only [List.length_set]
    omega
  · omega
  · simp [hkp]
  · apply List.ext_getElem?
    intro j
    have hvl : v.toList.length = v.size_ := toList_length v (by omega)
    have htl : (v.toList.take k).length = k := by
      rw [List.length_take, hvl]
      omega
    rw [List.getElem?_take, List.getElem?_append, htl, List.getElem?_take, List.getElem?_cons,
      List.getElem?_drop, toList_getElem?, toList_getElem?]
    simp only [List.getElem?_set, hpj j]
    have e0 : v.size_ - (v.size_ - k) = k := by omega
    rw [e0]
    by_cases c1 : j < k
    · have a1 : j < v.size_ + 1 := by omega
      have a2 : ¬ (k = j) := by omega
      have a3 : ¬ (k < j ∧ j ≤ v.size_) := by omega
      have a4 : ¬ (j = k ∧ 0 < v.size_ - k) := by omega
      have a5 : j < v.size_ := by omega
      rw [if_pos a1, if_neg a2, if_neg a3, if_neg a4, if_pos c1, if_pos c1, if_pos a5]
      exact hgj j a5
    · by_cases c2 : j = k
      · subst c2
        have a1 : j < v.size_ + 1 := by omega
        have a2 : j - j = 0 := by omega
        simp [a1, hkp, a2]
      · by_cases c3 : j ≤ v.size_
        · have a1 : j < v.size_ + 1 := by omega
          have a2 : ¬ (k = j) := by omega
          have a3 : k < j ∧ j ≤ v.size_ := by omega
          have a4 : ¬ (j - k = 0) := by omega
          have a5 : k + (j - k - 1) = j - 1 := by omega
          have a6 : j - 1 < v.size_ := by omega
          rw [if_pos a1, if_neg a2, if_pos a3, if_neg c1, if_neg a4, a5, if_pos a6]
          exact hgj (j - 1) a6
        · have a1 : ¬ (j < v.size_ + 1) := by omega
          have a4 : ¬ (j - k = 0) := by omega
          have a5 : k + (j - k - 1) = j - 1 := by omega
          have a6 : ¬ (j - 1 < v.size_) := by omega
          rw [if_neg a1, if_neg c1, if_neg a4, a5, if_neg a6]

theorem Erase_spec [CppType α] (v : SimpleVector α) (k : Nat)
    (hsz : v.size_ ≤ v.items_.cells.length) (hk : k < v.size_) (hmod : v.size_ < SIZE_MOD) :
    ∃ q : ArrayPtr α,
      Erase v (k : Int) = .ok (Iterator.cell k, ⟨q, v.size_ - 1, v.capacity_⟩) ∧
      q.cells.length = v.items_.cells.length ∧
      (∀ j, q.cells[j]? =
        if k ≤ j ∧ j + 1 < v.size_ then v.items_.cells[j + 1]?
        else if j + 1 = v.size_ ∧ k + 1 < v.size_ then
          (v.items_.cells[j]?).map CppType.moved_from
        else v.items_.cells[j]?) ∧
      q.cells.take (v.size_ - 1) = v.toList.take k ++ v.toList.drop (k + 1) := by
  have e1 : (k + 1) % SIZE_MOD = k + 1 := size_t_inc (by omega)
  have e2 : (v.size_ + SIZE_MOD - 1) % SIZE_MOD = v.size_ - 1 :=
    size_t_dec (by omega) (by omega)
  obtain ⟨q, hq, hql, hqj⟩ := erase_loop_spec (v.size_ - (k + 1)) v.items_ (k + 1)
    (by omega) (by omega) (by omega)
  have hrange : ¬ ((k : Int) < 0 ∨ (k : Int) > (v.size_ : Int)) := by omega
  have hptr : ptr_at q k = Iterator.cell k := by
    have hne : q.cells ≠ [] := by
      intro h
      have := congrArg List.length h
      rw [List.length_nil] at this
      omega
    simp [ptr_at, hne]
  have hpt : ∀ j, q.cells[j]? =
      if k ≤ j ∧ j + 1 < v.size_ then v.items_.cells[j + 1]?
      else if j + 1 = v.size_ ∧ k + 1 < v.size_ then
        (v.items_.cells[j]?).map CppType.moved_from
      else v.items_.cells[j]? := by
    intro j
    rw [hqj j]
    simp only [Nat.add_sub_cancel]
    clear hq hqj e1 e2 hmod
    split_ifs <;> first
      | rfl
      | omega
  refine ⟨q, ?_, hql, hpt, ?_⟩
  · simp only [Erase, if_neg hrange, Int.toNat_ofNat, e1, e2, hq, hptr]
  · apply List.ext_getElem?
    intro j
    have hvl : v.toList.length = v.size_ := toList_length v hsz
    have htl : (v.toList.take k).length = k := by
      rw [List.length_take, hvl]
      omega
    rw [List.getElem?_take, List.getElem?_append, htl, List.getElem?_take,
      List.getElem?_drop, toList_getElem?, toList_getElem?, hpt j]
    clear hq hqj e1 e2 hmod hpt
    by_cases c1 : j < k
    · have a1 : j < v.size_ - 1 := by omega
      have a2 : ¬ (k ≤ j ∧ j + 1 < v.size_) := by omega
      have a3 : ¬ (j + 1 = v.size_ ∧ k + 1 < v.size_) := by omega
      have a4 : j < v.size_ := by omega
      rw [if_pos a1, if_neg a2, if_neg a3, if_pos c1, if_pos c1, if_pos a4]
    · have a5 : k + 1 + (j - k) = j + 1 := by omega
      by_cases c2 : j + 1 < v.size_
      · have a1 : j < v.size_ - 1 := by omega
        have a2 : k ≤ j ∧ j + 1 < v.size_ := by omega
        rw [if_pos a1, if_pos a2, if_neg c1, a5, if_pos c2]
      · have a1 : ¬ (j < v.size_ - 1) := by omega
        rw [if_neg a1, if_neg c1, a5, if_neg c2]

theorem Resize_shrink [CppType α] (v : SimpleVector α) (n : Nat) (h : n ≤ v.size_) :
    Resize v n = .ok ⟨v.items_, n, v.capacity_⟩ := by
  simp [Resize, h]

theorem Resize_grow [CppType α] (v : SimpleVector α) (n : Nat)
    (hlen : v.items_.cells.length = v.capacity_) (hsz : v.size_ ≤ v.capacity_)
    (h : v.size_ < n) :
    ∃ q : ArrayPtr α,
      Resize v n = .ok ⟨q, n, if n ≤ v.capacity_ then v.capacity_ else n⟩ ∧
      q.cells.length = (if n ≤ v.capacity_ then v.capacity_ else n) ∧
      ∀ j, j < n → q.cells[j]? =
        if j < v.size_ then v.items_.cells[j]? else some CppType.value_init := by
  have hns : ¬ (n ≤ v.size_) := by omega
  by_cases hc : n ≤ v.capacity_
  · obtain ⟨q, hq, hl, hj⟩ := fill_cells_spec (CppType.value_init : α) (n - v.size_)
      v.items_ v.size_ (by omega)
    refine ⟨q, ?_, ?_, ?_⟩
    · simp only [Resize, if_neg hns, if_pos hc, generate, if_pos (Nat.le_of_lt h), hq]
    · rw [if_pos hc, hl, hlen]
    · intro j hjn
      rw [hj j]
      split_ifs <;> first
        | rfl
        | omega
  · obtain ⟨t, ht, htl, htj⟩ := move_cells_spec v.items_ v.size_ (ArrayPtr.alloc n) 0
      (by omega) (by simp [ArrayPtr.alloc]; omega)
    have htn : t.cells.length = n := by simpa [ArrayPtr.alloc] using htl
    obtain ⟨q, hq, hl, hj⟩ := fill_cells_spec (CppType.value_init : α) (n - v.size_)
      t v.size_ (by omega)
    refine ⟨q, ?_, ?_, ?_⟩
    · simp only [Resize, if_neg hns, if_neg hc, ht, generate, if_pos (Nat.le_of_lt h), hq]
    · rw [if_neg hc, hl, htn]
    · intro j hjn
      rw [hj j, htj j]
      split_ifs <;> first
        | rfl
        | omega

theorem doubling_capacity_step (v : SimpleVector α)
    (h : doubling_capacity v.size_ v.capacity_) :
    doubling_capacity (v.size_ + 1) (grown_capacity v) := by
  obtain ⟨h0, h1⟩ := h
  refine ⟨by omega, fun _ => ?_⟩
  by_cases hz : v.size_ = 0
  · have hc := h0 hz
    refine ⟨0, ?_, ?_, ?_⟩
    · simp [grown_capacity, hc]
    · simp [grown_capacity, hc, hz]
    · simp [grown_capacity, hc, hz]
  · obtain ⟨k, hk, hle, hlt⟩ := h1 (by omega)
    by_cases hfull : v.capacity_ = 0 ∨ v.capacity_ = v.size_
    · have hg : grown_capacity v = 2 * v.capacity_ := by
        simp only [grown_capacity, if_pos hfull]
        omega
      refine ⟨k + 1, ?_, ?_, ?_⟩
      · rw [hg, hk, Nat.pow_succ]
        omega
      · omega
      · omega
    · have hg : grown_capacity v = v.capacity_ := by
        simp only [grown_capacity, if_neg hfull]
      refine ⟨k, ?_, ?_, ?_⟩
      · rw [hg, hk]
      · omega
      · omega

theorem PushBack_all_spec [CppType α] (rvalue : Bool) : ∀ (xs : List α) (v : SimpleVector α),
    v.items_.cells.length = v.capacity_ → v.size_ ≤ v.capacity_ →
    doubling_capacity v.size_ v.capacity_ →
    2 * (v.size_ + xs.length) ≤ SIZE_MOD →
    ∃ w, PushBack_all rvalue v (xs.map ArgRef.outside) = .ok w ∧
      w.size_ = v.size_ + xs.length ∧
      w.toList = v.toList ++ xs ∧ w.items_.cells.length = w.capacity_ ∧
      doubling_capacity w.size_ w.capacity_ := by
  intro xs
  induction xs with
  | nil =>
    intro v hlen _ hd _
    exact ⟨v, rfl, by simp, by simp, hlen, hd⟩
  | cons x xs ih =>
    intro v hlen hsz hd hN
    simp only [List.length_cons] at hN
    have hcap : v.capacity_ < SIZE_MOD := by
      by_cases hz : v.size_ = 0
      · have := hd.1 hz
        omega
      · obtain ⟨k, _, _, hlt⟩ := hd.2 (by omega)
        omega
    obtain ⟨q, hq, hql, hqs, hqt⟩ := PushBack_spec v x rvalue hlen hsz hcap (by omega)
    obtain ⟨w, hw, hws, hwt, hwl, hwd⟩ := ih ⟨q, v.size_ + 1, grown_capacity v⟩ hql hqs
      (doubling_capacity_step v hd) (by simp only; omega)
    refine ⟨w, ?_, ?_, ?_, hwl, hwd⟩
    · simp only [List.map_cons, PushBack_all, hq]
      exact hw
    · rw [hws]
      simp only [List.length_cons]
      omega
    · rw [hwt]
      simp only [toList]
      rw [hqt]
      simp [toList]

theorem doubling_capacity_least {size capacity : Nat} (h : doubling_capacity size capacity)
    (hpos : 0 < size) :
    ∃ k, capacity = 2 ^ k ∧ size ≤ 2 ^ k ∧ ∀ m, size ≤ 2 ^ m → 2 ^ k ≤ 2 ^ m := by
  obtain ⟨k, hk, hle, hlt⟩ := h.2 hpos
  refine ⟨k, hk, by omega, fun m hm => ?_⟩
  by_contra hcon
  have hlt2 : 2 ^ m < 2 ^ k := by omega
  have hmk : m < k := (Nat.pow_lt_pow_iff_right (by norm_num)).mp hlt2
  have h2 : 2 ^ (m + 1) ≤ 2 ^ k := Nat.pow_le_pow_right (by norm_num) hmk
  rw [Nat.pow_succ] at h2
  omega

theorem Erase_at_end [CppType α] (v : SimpleVector α) (h : v.size_ + 1 < SIZE_MOD) :
    Erase v (v.size_ : Int)
      = .ok (ptr_at v.items_ v.size_,
          ⟨v.items_, (v.size_ + SIZE_MOD - 1) % SIZE_MOD, v.capacity_⟩) := by
  have hrange : ¬ ((v.size_ : Int) < 0 ∨ (v.size_ : Int) > (v.size_ : Int)) := by omega
  have e1 : (v.size_ + 1) % SIZE_MOD = v.size_ + 1 := size_t_inc h
  have e2 : v.size_ - (v.size_ + 1) = 0 := by omega
  simp only [Erase, if_neg hrange, Int.toNat_ofNat, e1, e2, erase_loop]

theorem Resize_total [CppType α] (v : SimpleVector α) (n : Nat)
    (hlen : v.items_.cells.length = v.capacity_) (hsz : v.size_ ≤ v.capacity_) :
    ∃ w, Resize v n = .ok w ∧ w.size_ = n ∧ n ≤ w.capacity_ ∧
      w.items_.cells.length = w.capacity_ := by
  by_cases hn : n ≤ v.size_
  · exact ⟨_, Resize_shrink v n hn, rfl, by simp only; omega, hlen⟩
  · obtain ⟨q, hq, hql, _⟩ := Resize_grow v n hlen hsz (by omega)
    refine ⟨_, hq, rfl, ?_, hql⟩
    simp only
    split_ifs <;> omega

/-- Every mutating operation keeps `size <= capacity` on a vector whose buffer has
`capacity` cells, with the one exception of `Erase` on an empty vector. -/
theorem size_le_capacity_kept [CppType α] (v : SimpleVector α)
    (hlen : v.items_.cells.length = v.capacity_) (hsz : v.size_ ≤ v.capacity_)
    (hcap : v.capacity_ < SIZE_MOD) (hdbl : 2 * v.size_ < SIZE_MOD) :
    (Clear v).size_ ≤ (Clear v).capacity_ ∧
    (PopBack v).size_ ≤ (PopBack v).capacity_ ∧
    (∀ n, ∃ w, Resize v n = .ok w ∧ w.size_ ≤ w.capacity_) ∧
    (∀ n, ∃ w, Reserve v n = .ok w ∧ w.size_ ≤ w.capacity_) ∧
    (∀ (x : α) (r : Bool), ∃ w, PushBack v (.outside x) r = .ok w ∧
      w.size_ ≤ w.capacity_) ∧
    (∀ (k : Nat) (x : α) (r : Bool), k ≤ v.size_ →
      ∃ it w, Insert v (k : Int) (.outside x) r = .ok (it, w) ∧ w.size_ ≤ w.capacity_) ∧
    (∀ k : Nat, k ≤ v.size_ → 0 < v.size_ →
      ∃ it w, Erase v (k : Int) = .ok (it, w) ∧ w.size_ ≤ w.capacity_) ∧
    (∀ other : SimpleVector α, other.size_ ≤ other.capacity_ →
      (swap v other).1.size_ ≤ (swap v other).1.capacity_ ∧
      (swap v other).2.size_ ≤ (swap v other).2.capacity_) ∧
    (∀ rhs : SimpleVector α, rhs.size_ ≤ rhs.items_.cells.length →
      ∃ w, assign v rhs = .ok w ∧ w.size_ ≤ w.capacity_) := by
  refine ⟨Nat.zero_le _, ?_, ?_, ?_, ?_, ?_, ?_, ?_, ?_⟩
  · unfold PopBack
    split_ifs with h0
    · have e : (v.size_ + SIZE_MOD - 1) % SIZE_MOD = v.size_ - 1 :=
        size_t_dec (by omega) (by omega)
      simp only [e]
      omega
    · exact hsz
  · intro n
    obtain ⟨w, hw, hws, hwc, _⟩ := Resize_total v n hlen hsz
    exact ⟨w, hw, by omega⟩
  · intro n
    by_cases hn : n ≤ v.capacity_
    · exact ⟨v, Reserve_noop v n hn, hsz⟩
    · obtain ⟨q, hq, _, _⟩ := Reserve_grow v n (by omega) hsz (by omega)
      exact ⟨_, hq, by simp only; omega⟩
  · intro x r
    obtain ⟨q, hq, _, hqs, _⟩ := PushBack_spec v x r hlen hsz hcap hdbl
    exact ⟨_, hq, hqs⟩
  · intro k x r hk
    obtain ⟨q, y, hq, _, hqs, _⟩ := Insert_spec v k (.outside x) r hlen hsz hk hcap hdbl
      (Or.inl ⟨x, rfl⟩)
    exact ⟨_, _, hq, hqs⟩
  · intro k hk hpos
    by_cases hlt : k < v.size_
    · obtain ⟨q, hq, _, _, _⟩ := Erase_spec v k (by omega) hlt (by omega)
      exact ⟨_, _, hq, by simp only; omega⟩
    · have hke : k = v.size_ := by omega
      subst hke
      have e : (v.size_ + SIZE_MOD - 1) % SIZE_MOD = v.size_ - 1 :=
        size_t_dec (by omega) (by omega)
      refine ⟨_, _, Erase_at_end v (by omega), ?_⟩
      simp only [e]
      omega
  · intro other ho
    exact ⟨ho, hsz⟩
  · intro rhs hr
    obtain ⟨w, hw, hws, hwc, _⟩ := Resize_total v rhs.size_ hlen hsz
    obtain ⟨t, ht, _, _⟩ := move_cells_spec rhs.items_ rhs.size_
      (ArrayPtr.alloc rhs.size_) 0 (by omega) (by simp [ArrayPtr.alloc])
    refine ⟨{ w with items_ := t }, ?_, ?_⟩
    · simp only [assign, GetSize, hw, copy, ht]
    · simp only
      omega

/-! ## The size/capacity invariant (C1) -/

/-- C1: the invariant `size <= capacity` is not preserved by `Erase` at an accepted
position.  On the default-constructed vector (size 0, capacity 0) the position
`begin()`, which is also `end()`, passes the range check; the loop does not run and
`--size_` wraps, so `Erase` returns normally with size `2 ^ 64 - 1` and capacity 0. -/
theorem C1_Erase_on_empty_breaks_size_le_capacity :
    (empty : SimpleVector Int).size_ ≤ (empty : SimpleVector Int).capacity_ ∧
    Erase (empty : SimpleVector Int) 0
      = .ok (Iterator.null, ⟨ArrayPtr.null, 18446744073709551615, 0⟩) ∧
    ¬ ((18446744073709551615 : Nat) ≤ 0) := by
  refine ⟨by decide, by decide, by decide⟩

/-! ## The buffer length (C2) -/

/-- C2: the buffer length is not always the capacity.  `SimpleVector(Reserve(3))` has
capacity 3 and no storage at all, so that its first `PushBack` writes outside the
buffer; and after `a = b` with `a = {1,2,3}`, `b = {7}` the vector `a` owns a buffer
of one cell while `GetCapacity()` is still 3. -/
theorem C2_buffer_length_differs_from_capacity :
    ((with_reserve 3 : SimpleVector Int).items_.cells.length = 0 ∧
      (with_reserve 3 : SimpleVector Int).GetCapacity = 3 ∧
      PushBack (with_reserve 3 : SimpleVector Int) (.outside 9) false
        = .error .undefined_behaviour ∧
      PushBack (with_reserve 3 : SimpleVector Int) (.outside 9) true
        = .error .undefined_behaviour) ∧
    (of_list [1, 2, 3] = .ok (⟨⟨[1, 2, 3]⟩, 3, 3⟩ : SimpleVector Int) ∧
      of_list [7] = .ok (⟨⟨[7]⟩, 1, 1⟩ : SimpleVector Int) ∧
      assign (⟨⟨[1, 2, 3]⟩, 3, 3⟩ : SimpleVector Int) ⟨⟨[7]⟩, 1, 1⟩
        = .ok ⟨⟨[7]⟩, 1, 3⟩ ∧
      (⟨⟨[7]⟩, 1, 3⟩ : SimpleVector Int).items_.cells.length = 1 ∧
      (⟨⟨[7]⟩, 1, 3⟩ : SimpleVector Int).GetCapacity = 3) := by
  refine ⟨⟨by decide, by decide, by decide, by decide⟩, by decide, by decide, by decide,
    by decide, by decide⟩

/-! ## Checked access (C3) -/

/-- C3: `At(i)` gives what `operator[](i)` gives when `i < size`, which is the live
element number `i` when the live elements lie inside the buffer; it fails with
`out_of_range` when `i >= size`, in particular for `i = size` and `i = size + 1`; and
it leaves the vector as it was. -/
theorem C3_At_checked (v : SimpleVector α) (i : Nat) :
    (i < v.size_ → (At v i).1 = index v i) ∧
    (i < v.size_ → v.size_ ≤ v.items_.cells.length →
      ∃ x, (At v i).1 = .ok x ∧ v.toList[i]? = some x) ∧
    (v.size_ ≤ i → (At v i).1 = .error .out_of_range) ∧
    (At v v.size_).1 = .error .out_of_range ∧
    (At v (v.size_ + 1)).1 = .error .out_of_range ∧
    (At v i).2 = v := by
  refine ⟨?_, ?_, ?_, ?_, ?_, ?_⟩
  · intro h
    simp [At, index, h]
  · intro h hb
    have hi : i < v.items_.cells.length := by omega
    refine ⟨v.items_.cells[i], ?_, ?_⟩
    · simp [At, h, ArrayPtr.get_of_lt v.items_ hi]
    · rw [toList_getElem?, if_pos h]
      exact List.getElem?_eq_getElem hi
  · intro h
    simp [At, Nat.not_lt.mpr h]
  · simp [At]
  · simp [At]
  · unfold At
    split_ifs <;> rfl

/-- C3 at `{1,2,3}`: index 1 is read, index 3 is refused. -/
theorem C3_At_checked_witness :
    (At (⟨⟨[1, 2, 3]⟩, 3, 3⟩ : SimpleVector Int) 1).1
      = index (⟨⟨[1, 2, 3]⟩, 3, 3⟩ : SimpleVector Int) 1 ∧
    (∃ x, (At (⟨⟨[1, 2, 3]⟩, 3, 3⟩ : SimpleVector Int) 1).1 = .ok x ∧
      (⟨⟨[1, 2, 3]⟩, 3, 3⟩ : SimpleVector Int).toList[1]? = some x) ∧
    (At (⟨⟨[1, 2, 3]⟩, 3, 3⟩ : SimpleVector Int) 3).1 = .error .out_of_range :=
  ⟨(C3_At_checked (⟨⟨[1, 2, 3]⟩, 3, 3⟩ : SimpleVector Int) 1).1 (by decide),
   (C3_At_checked (⟨⟨[1, 2, 3]⟩, 3, 3⟩ : SimpleVector Int) 1).2.1 (by decide) (by decide),
   (C3_At_checked (⟨⟨[1, 2, 3]⟩, 3, 3⟩ : SimpleVector Int) 3).2.2.1 (by decide)⟩

/-! ## Growth under PushBack (C4) -/

/-- C4, as stated, fails when a pushed value is passed as a reference to an element of
the vector itself and the push reallocates: after `v.PushBack(1)` the vector is full, and
`v.PushBack(v[0])` releases the old block in `Reserve` before `*end() = item` reads the
reference.  The sequence 1, 1 pushed this way does not give a vector of size 2 with the
elements 1, 1. -/
theorem C4_PushBack_of_own_element_when_full :
    PushBack (empty : SimpleVector Int) (.outside 1) false = .ok ⟨⟨[1]⟩, 1, 1⟩ ∧
    arg_value (⟨⟨[1]⟩, 1, 1⟩ : SimpleVector Int) (.cell 0) = .ok 1 ∧
    PushBack (⟨⟨[1]⟩, 1, 1⟩ : SimpleVector Int) (.cell 0) false
      = .error .undefined_behaviour ∧
    PushBack (⟨⟨[1]⟩, 1, 1⟩ : SimpleVector Int) (.cell 0) true
      = .error .undefined_behaviour ∧
    ¬ ∃ w, PushBack_all false (empty : SimpleVector Int) [.outside 1, .cell 0] = .ok w ∧
      w.GetSize = 2 ∧ w.toList = [1, 1] := by
  refine ⟨by decide, by decide, by decide, by decide, ?_⟩
  rintro ⟨w, hw, _⟩
  have h : PushBack_all false (empty : SimpleVector Int) [.outside 1, .cell 0]
      = .error .undefined_behaviour := by decide
  rw [h] at hw
  cases hw

/-- C4, amended: pushing `x1..xN`, each passed as an object outside the vector, with
either overload of `PushBack` onto the default-constructed vector succeeds and gives
size `N`, the elements `x1..xN` in push order, and capacity 0 when `N = 0`, otherwise the
least power of two that is at least `N`.  `N` is at most `2 ^ 63`, the largest length for
which the doubled capacity is still a `size_t`.  A reference to an element of the vector
itself is also pushed correctly by the `const&` overload as long as the vector is not
full. -/
theorem C4_PushBack_growth [CppType α] (xs : List α) (rvalue : Bool)
    (hN : 2 * xs.length ≤ SIZE_MOD) :
    (∃ w, PushBack_all rvalue (empty : SimpleVector α) (xs.map ArgRef.outside) = .ok w ∧
      w.GetSize = xs.length ∧ w.toList = xs ∧
      w.items_.cells.length = w.GetCapacity ∧
      (xs.length = 0 → w.GetCapacity = 0) ∧
      (0 < xs.length →
        ∃ k, w.GetCapacity = 2 ^ k ∧ xs.length ≤ 2 ^ k ∧
          ∀ m, xs.length ≤ 2 ^ m → 2 ^ k ≤ 2 ^ m)) ∧
    (∀ (v : SimpleVector α) (j : Nat), v.items_.cells.length = v.capacity_ →
      v.size_ ≤ v.capacity_ → v.capacity_ < SIZE_MOD → 2 * v.size_ < SIZE_MOD →
      ¬ (v.capacity_ = 0 ∨ v.capacity_ = v.size_) → j < v.size_ →
      ∃ w x, v.toList[j]? = some x ∧ PushBack v (.cell j) false = .ok w ∧
        w.GetSize = v.GetSize + 1 ∧ w.GetCapacity = v.GetCapacity ∧
        w.toList = v.toList ++ [x]) := by
  constructor
  · obtain ⟨w, hw, hws, hwt, hwl, hwd⟩ := PushBack_all_spec rvalue xs (empty : SimpleVector α)
      rfl (Nat.le_refl _) ⟨fun _ => rfl, fun h => absurd h (Nat.lt_irrefl 0)⟩
      (by simpa [empty] using hN)
    have hs : w.size_ = xs.length := by simpa [empty] using hws
    refine ⟨w, hw, hs, ?_, hwl, ?_, ?_⟩
    · simpa [empty, toList, ArrayPtr.null] using hwt
    · intro h0
      exact hwd.1 (by omega)
    · intro hpos
      rw [← hs]
      exact doubling_capacity_least hwd (by omega)
  · intro v j hlen hsz hcap hdbl hnf hj
    obtain ⟨q, x, hx, hq, _, hqt⟩ := PushBack_own_element v j hlen hsz hcap hdbl hnf hj
    refine ⟨_, x, ?_, hq, rfl, rfl, hqt⟩
    rw [toList_getElem?, if_pos hj]
    exact hx

/-- C4 at five pushes: size 5, capacity 8. -/
theorem C4_PushBack_growth_witness :
    2 * [10, 20, 30, 40, 50].length ≤ SIZE_MOD ∧
    PushBack_all false (empty : SimpleVector Int)
        [.outside 10, .outside 20, .outside 30, .outside 40, .outside 50]
      = .ok ⟨⟨[10, 20, 30, 40, 50, 0, 0, 0]⟩, 5, 8⟩ ∧
    PushBack (⟨⟨[10, 20, 30, 0]⟩, 3, 4⟩ : SimpleVector Int) (.cell 1) false
      = .ok ⟨⟨[10, 20, 30, 20]⟩, 4, 4⟩ ∧
    ∃ w, PushBack_all false (empty : SimpleVector Int)
        (([10, 20, 30, 40, 50] : List Int).map ArgRef.outside) = .ok w ∧
      w.GetSize = [10, 20, 30, 40, 50].length ∧ w.toList = [10, 20, 30, 40, 50] ∧
      w.items_.cells.length = w.GetCapacity ∧
      ([10, 20, 30, 40, 50].length = 0 → w.GetCapacity = 0) ∧
      (0 < [10, 20, 30, 40, 50].length →
        ∃ k, w.GetCapacity = 2 ^ k ∧ [10, 20, 30, 40, 50].length ≤ 2 ^ k ∧
          ∀ m, [10, 20, 30, 40, 50].length ≤ 2 ^ m → 2 ^ k ≤ 2 ^ m) :=
  ⟨by decide, by decide, by decide,
   (C4_PushBack_growth ([10, 20, 30, 40, 50] : List Int) false (by decide)).1⟩

/-! ## Insert and Erase (C5 to C8) -/

/-- C5, as stated, fails when the value is passed as a reference to an element at or
behind the insertion position.  `v{1,2}; v.Reserve(4); v.Insert(v.begin(), v[1])` asks
for the value 2 in front; `std::move_backward` shifts the cells to 1, 1, 2 before
`*pos_res = value` reads the reference, now on the value 1, and the result is
`{1,1,2}`, not `{2,1,2}`.  On a full vector the reference is read after `Reserve` has
released its block. -/
theorem C5_Insert_of_own_element :
    Reserve (⟨⟨[1, 2]⟩, 2, 2⟩ : SimpleVector Int) 4 = .ok ⟨⟨[1, 2, 0, 0]⟩, 2, 4⟩ ∧
    arg_value (⟨⟨[1, 2, 0, 0]⟩, 2, 4⟩ : SimpleVector Int) (.cell 1) = .ok 2 ∧
    Insert (⟨⟨[1, 2, 0, 0]⟩, 2, 4⟩ : SimpleVector Int) 0 (.cell 1) false
      = .ok (Iterator.cell 0, ⟨⟨[1, 1, 2, 0]⟩, 3, 4⟩) ∧
    (⟨⟨[1, 1, 2, 0]⟩, 3, 4⟩ : SimpleVector Int).toList = [1, 1, 2] ∧
    (⟨⟨[1, 1, 2, 0]⟩, 3, 4⟩ : SimpleVector Int).toList ≠
      (⟨⟨[1, 2, 0, 0]⟩, 2, 4⟩ : SimpleVector Int).toList.take 0
        ++ 2 :: (⟨⟨[1, 2, 0, 0]⟩, 2, 4⟩ : SimpleVector Int).toList.drop 0 ∧
    Insert (⟨⟨[1, 2]⟩, 2, 2⟩ : SimpleVector Int) 0 (.cell 1) false
      = .error .undefined_behaviour := by
  refine ⟨by decide, by decide, by decide, by decide, by decide, by decide⟩

/-- C5, amended: on a vector whose buffer has `capacity` cells and whose `size` live
elements fit in it, `Insert(begin() + k, value)` with `k <= size` and a value `x` passed
either as an object outside the vector (either overload) or, through the `const&`
overload on a vector that is not full, as a reference to an element in front of offset
`k`, succeeds, gives the sequence `e0..e(k-1), x, ek..e(n-1)` of size `n + 1`, returns the
address of cell `k` of the buffer it leaves, which holds `x`, and leaves capacity
`max(1, 2 * capacity)` when the vector was full and the old capacity otherwise.
`capacity` is a `size_t` and `2 * size` does not overflow one. -/
theorem C5_Insert_result [CppType α] (v : SimpleVector α) (k : Nat) (value : ArgRef α)
    (rvalue : Bool) (x : α)
    (hlen : v.items_.cells.length = v.capacity_) (hsz : v.size_ ≤ v.capacity_)
    (hk : k ≤ v.size_)
    (hcap : v.capacity_ < SIZE_MOD) (hdbl : 2 * v.size_ < SIZE_MOD)
    (harg : value = .outside x ∨
      (∃ j, value = .cell j ∧ j < k ∧ v.items_.cells[j]? = some x ∧ rvalue = false ∧
        ¬ (v.capacity_ = 0 ∨ v.capacity_ = v.size_))) :
    ∃ w, Insert v (k : Int) value rvalue = .ok (Iterator.cell k, w) ∧
      w.toList = v.toList.take k ++ x :: v.toList.drop k ∧
      w.GetSize = v.GetSize + 1 ∧
      w.items_.cells[k]? = some x ∧
      w.GetCapacity =
        (if v.capacity_ = 0 ∨ v.capacity_ = v.size_ then max 1 (2 * v.capacity_)
         else v.capacity_) ∧
      w.items_.cells.length = w.GetCapacity := by
  have harg2 : (∃ y, value = .outside y) ∨
      (∃ j, value = .cell j ∧ j < v.size_ ∧ rvalue = false ∧
        ¬ (v.capacity_ = 0 ∨ v.capacity_ = v.size_)) := by
    rcases harg with h | ⟨j, hj, hjk, _, hr, hnf⟩
    · exact Or.inl ⟨x, h⟩
    · exact Or.inr ⟨j, hj, by omega, hr, hnf⟩
  obtain ⟨q, y, hq, hql, _, hqk, hqt, hout, hcell⟩ :=
    Insert_spec v k value rvalue hlen hsz hk hcap hdbl harg2
  have hyx : y = x := by
    rcases harg with h | ⟨j, hj, hjk, hjx, _, _⟩
    · exact hout x h
    · have h1 := hcell j hj hjk
      rw [hjx] at h1
      exact (Option.some.inj h1).symm
  subst hyx
  exact ⟨⟨q, v.size_ + 1, grown_capacity v⟩, hq, hqt, rfl, hqk, rfl, hql⟩

/-- C5 at the full vector `{1,2,3}`: inserting 9 at offset 1 gives `{1,9,2,3}` with
capacity 6; and at `{1,2}` with capacity 4: inserting `v[0]` at offset 1 gives
`{1,1,2}`. -/
theorem C5_Insert_result_witness :
    Insert (⟨⟨[1, 2, 3]⟩, 3, 3⟩ : SimpleVector Int) 1 (.outside 9) false
      = .ok (Iterator.cell 1, ⟨⟨[1, 9, 2, 3, 0, 0]⟩, 4, 6⟩) ∧
    Insert (⟨⟨[1, 2, 0, 0]⟩, 2, 4⟩ : SimpleVector Int) 1 (.cell 0) false
      = .ok (Iterator.cell 1, ⟨⟨[1, 1, 2, 0]⟩, 3, 4⟩) ∧
    (∃ w, Insert (⟨⟨[1, 2, 3]⟩, 3, 3⟩ : SimpleVector Int) ((1 : Nat) : Int) (.outside 9) false
        = .ok (Iterator.cell 1, w) ∧
      w.toList = (⟨⟨[1, 2, 3]⟩, 3, 3⟩ : SimpleVector Int).toList.take 1
        ++ 9 :: (⟨⟨[1, 2, 3]⟩, 3, 3⟩ : SimpleVector Int).toList.drop 1 ∧
      w.GetSize = (⟨⟨[1, 2, 3]⟩, 3, 3⟩ : SimpleVector Int).GetSize + 1 ∧
      w.items_.cells[1]? = some 9 ∧
      w.GetCapacity = (if (3 : Nat) = 0 ∨ (3 : Nat) = 3 then max 1 (2 * 3) else 3) ∧
      w.items_.cells.length = w.GetCapacity) ∧
    (∃ w, Insert (⟨⟨[1, 2, 0, 0]⟩, 2, 4⟩ : SimpleVector Int) ((1 : Nat) : Int) (.cell 0) false
        = .ok (Iterator.cell 1, w) ∧
      w.toList = (⟨⟨[1, 2, 0, 0]⟩, 2, 4⟩ : SimpleVector Int).toList.take 1
        ++ 1 :: (⟨⟨[1, 2, 0, 0]⟩, 2, 4⟩ : SimpleVector Int).toList.drop 1 ∧
      w.GetSize = (⟨⟨[1, 2, 0, 0]⟩, 2, 4⟩ : SimpleVector Int).GetSize + 1 ∧
      w.items_.cells[1]? = some 1 ∧
      w.GetCapacity = (if (4 : Nat) = 0 ∨ (4 : Nat) = 2 then max 1 (2 * 4) else 4) ∧
      w.items_.cells.length = w.GetCapacity) :=
  ⟨by decide, by decide,
   C5_Insert_result (⟨⟨[1, 2, 3]⟩, 3, 3⟩ : SimpleVector Int) 1 (.outside 9) false 9
    (by decide) (by decide) (by decide) (by decide) (by decide) (Or.inl rfl),
   C5_Insert_result (⟨⟨[1, 2, 0, 0]⟩, 2, 4⟩ : SimpleVector Int) 1 (.cell 0) false 1
    (by decide) (by decide) (by decide) (by decide) (by decide)
    (Or.inr ⟨0, rfl, by decide, by decide, rfl, by decide⟩)⟩

/-- C6: on a vector whose `size` live elements lie in its buffer, `Erase(begin() + k)`
with `k < size` succeeds, gives the sequence `e0..e(k-1), e(k+1)..e(n-1)` of size
`n - 1` with the capacity unchanged, and returns the address of cell `k`: that cell
holds the element that followed the erased one, or the address is `end()` when `k`
was the last index. -/
theorem C6_Erase_result [CppType α] (v : SimpleVector α) (k : Nat)
    (hbuf : v.size_ ≤ v.items_.cells.length) (hk : k < v.size_)
    (hmod : v.size_ < SIZE_MOD) :
    ∃ w, Erase v (k : Int) = .ok (Iterator.cell k, w) ∧
      w.toList = v.toList.take k ++ v.toList.drop (k + 1) ∧
      w.GetSize = v.GetSize - 1 ∧
      w.GetCapacity = v.GetCapacity ∧
      (k + 1 < v.size_ → w.items_.cells[k]? = v.toList[k + 1]? ∧
        w.toList[k]? = v.toList[k + 1]?) ∧
      (k + 1 = v.size_ → Iterator.cell k = end_iter w) := by
  obtain ⟨q, hq, hql, hqj, hqt⟩ := Erase_spec v k hbuf hk hmod
  refine ⟨⟨q, v.size_ - 1, v.capacity_⟩, hq, hqt, rfl, rfl, ?_, ?_⟩
  · intro h
    have a1 : k ≤ k ∧ k + 1 < v.size_ := by omega
    have a2 : k < v.size_ - 1 := by omega
    rw [toList_getElem?, toList_getElem?, if_pos h]
    simp only
    rw [if_pos a2, hqj k, if_pos a1]
    exact ⟨rfl, rfl⟩
  · intro h
    have hne : q.cells ≠ [] := by
      intro hnil
      have := congrArg List.length hnil
      rw [List.length_nil] at this
      omega
    have hk2 : v.size_ - 1 = k := by omega
    simp [end_iter, ptr_at, hne, hk2]

/-- C6 at `{1,2,3}`: erasing offset 1 gives `{1,3}`, erasing offset 2 returns `end()`. -/
theorem C6_Erase_result_witness :
    Erase (⟨⟨[1, 2, 3]⟩, 3, 3⟩ : SimpleVector Int) 1
      = .ok (Iterator.cell 1, ⟨⟨[1, 3, 3]⟩, 2, 3⟩) ∧
    Erase (⟨⟨[1, 2, 3]⟩, 3, 3⟩ : SimpleVector Int) 2
      = .ok (Iterator.cell 2, ⟨⟨[1, 2, 3]⟩, 2, 3⟩) ∧
    ∃ w, Erase (⟨⟨[1, 2, 3]⟩, 3, 3⟩ : SimpleVector Int) ((1 : Nat) : Int)
        = .ok (Iterator.cell 1, w) ∧
      w.toList = (⟨⟨[1, 2, 3]⟩, 3, 3⟩ : SimpleVector Int).toList.take 1
        ++ (⟨⟨[1, 2, 3]⟩, 3, 3⟩ : SimpleVector Int).toList.drop (1 + 1) ∧
      w.GetSize = (⟨⟨[1, 2, 3]⟩, 3, 3⟩ : SimpleVector Int).GetSize - 1 ∧
      w.GetCapacity = (⟨⟨[1, 2, 3]⟩, 3, 3⟩ : SimpleVector Int).GetCapacity ∧
      (1 + 1 < 3 → w.items_.cells[1]?
          = (⟨⟨[1, 2, 3]⟩, 3, 3⟩ : SimpleVector Int).toList[1 + 1]? ∧
        w.toList[1]? = (⟨⟨[1, 2, 3]⟩, 3, 3⟩ : SimpleVector Int).toList[1 + 1]?) ∧
      (1 + 1 = 3 → Iterator.cell 1 = end_iter w) :=
  ⟨by decide, by decide,
   C6_Erase_result (⟨⟨[1, 2, 3]⟩, 3, 3⟩ : SimpleVector Int) 1 (by decide) (by decide)
    (by decide)⟩

/-- C7: a position before `begin()` or after `end()` makes both `Insert` and `Erase`
return the null iterator and leave the vector (size, capacity, buffer) as it was. -/
theorem C7_rejected_positions [CppType α] (v : SimpleVector α) (pos : Int)
    (value : ArgRef α) (rvalue : Bool)
    (h : pos < 0 ∨ (v.size_ : Int) < pos) :
    Insert v pos value rvalue = .ok (Iterator.null, v) ∧
    Erase v pos = .ok (Iterator.null, v) := by
  have h2 : pos < 0 ∨ pos > (v.size_ : Int) := h
  exact ⟨by simp only [Insert, if_pos h2], by simp only [Erase, if_pos h2]⟩

/-- C7 at `{1,2,3}`: the positions `begin() - 1` and `end() + 1` are refused. -/
theorem C7_rejected_positions_witness :
    (Insert (⟨⟨[1, 2, 3]⟩, 3, 3⟩ : SimpleVector Int) (-1) (.outside 9) false
        = .ok (Iterator.null, ⟨⟨[1, 2, 3]⟩, 3, 3⟩) ∧
      Erase (⟨⟨[1, 2, 3]⟩, 3, 3⟩ : SimpleVector Int) (-1)
        = .ok (Iterator.null, ⟨⟨[1, 2, 3]⟩, 3, 3⟩)) ∧
    (Insert (⟨⟨[1, 2, 3]⟩, 3, 3⟩ : SimpleVector Int) 4 (.cell 0) true
        = .ok (Iterator.null, ⟨⟨[1, 2, 3]⟩, 3, 3⟩) ∧
      Erase (⟨⟨[1, 2, 3]⟩, 3, 3⟩ : SimpleVector Int) 4
        = .ok (Iterator.null, ⟨⟨[1, 2, 3]⟩, 3, 3⟩)) :=
  ⟨C7_rejected_positions (⟨⟨[1, 2, 3]⟩, 3, 3⟩ : SimpleVector Int) (-1) (.outside 9) false
    (Or.inl (by decide)),
   C7_rejected_positions (⟨⟨[1, 2, 3]⟩, 3, 3⟩ : SimpleVector Int) 4 (.cell 0) true
    (Or.inr (by decide))⟩

/-- C8, as stated, fails on a full vector when `x` is passed as a reference to one of
its elements: in `v{1,2,3}; v.Insert(v.begin(), v[0])` the call to `Reserve` releases
the block that the reference points into before `*pos_res = value` reads it.  It also
fails on the non-empty vector that `a = b` leaves for `a = {1,2,3}`, `b = {7}` (size 1,
capacity 3, a buffer of one cell), where `Insert` writes outside the buffer. -/
theorem C8_Insert_of_own_element_when_full :
    (0 < (⟨⟨[1, 2, 3]⟩, 3, 3⟩ : SimpleVector Int).GetSize ∧
      arg_value (⟨⟨[1, 2, 3]⟩, 3, 3⟩ : SimpleVector Int) (.cell 0) = .ok 1 ∧
      Insert (⟨⟨[1, 2, 3]⟩, 3, 3⟩ : SimpleVector Int) 0 (.cell 0) false
        = .error .undefined_behaviour ∧
      Insert (⟨⟨[1, 2, 3]⟩, 3, 3⟩ : SimpleVector Int) 0 (.cell 0) true
        = .error .undefined_behaviour) ∧
    (assign (⟨⟨[1, 2, 3]⟩, 3, 3⟩ : SimpleVector Int) ⟨⟨[7]⟩, 1, 1⟩ = .ok ⟨⟨[7]⟩, 1, 3⟩ ∧
      0 < (⟨⟨[7]⟩, 1, 3⟩ : SimpleVector Int).GetSize ∧
      Insert (⟨⟨[7]⟩, 1, 3⟩ : SimpleVector Int) 0 (.outside 9) false
        = .error .undefined_behaviour) := by
  refine ⟨⟨by decide, by decide, by decide, by decide⟩, by decide, by decide, by decide⟩

/-- C8, amended: on a non-empty vector whose buffer has `capacity` cells and holds the
live elements, with `x` passed either as an object outside the vector (either overload)
or, through the `const&` overload on a vector that is not full, as a reference to one of
its elements, `Insert(begin(), x)` followed by `Erase(begin())` both succeed and the
vector has its original size and its original elements in their order again. -/
theorem C8_Insert_Erase_round_trip [CppType α] (v : SimpleVector α) (x : ArgRef α)
    (rvalue : Bool)
    (hne : 0 < v.size_)
    (hlen : v.items_.cells.length = v.capacity_) (hsz : v.size_ ≤ v.capacity_)
    (hcap : v.capacity_ < SIZE_MOD) (hdbl : 2 * v.size_ < SIZE_MOD)
    (harg : (∃ y, x = .outside y) ∨
      (∃ j, x = .cell j ∧ j < v.size_ ∧ rvalue = false ∧
        ¬ (v.capacity_ = 0 ∨ v.capacity_ = v.size_))) :
    ∃ w1 w2, Insert v 0 x rvalue = .ok (Iterator.cell 0, w1) ∧
      Erase w1 0 = .ok (Iterator.cell 0, w2) ∧
      w2.GetSize = v.GetSize ∧ w2.toList = v.toList := by
  obtain ⟨q, y, hq, hql, hqs, _, hqt, _, _⟩ :=
    Insert_spec v 0 x rvalue hlen hsz (Nat.zero_le _) hcap hdbl harg
  obtain ⟨r, hr, _, _, hrt⟩ := Erase_spec ⟨q, v.size_ + 1, grown_capacity v⟩ 0
    (by simp only; omega) (by simp only; omega) (by simp only; omega)
  refine ⟨⟨q, v.size_ + 1, grown_capacity v⟩, _, hq, hr, ?_, ?_⟩
  · simp [GetSize]
  · have h1 : (⟨q, v.size_ + 1, grown_capacity v⟩ : SimpleVector α).toList
        = y :: v.toList := by
      simp only [toList]
      rw [hqt]
      simp [toList]
    simp only [toList] at hrt h1 ⊢
    simp only [Nat.add_sub_cancel] at hrt ⊢
    rw [hrt, h1]
    simp

/-- C8 at `{1,2,3}` with `x = 9`, and at `{1,2}` with capacity 4 and `x = v[1]`. -/
theorem C8_Insert_Erase_round_trip_witness :
    Insert (⟨⟨[1, 2, 3]⟩, 3, 3⟩ : SimpleVector Int) 0 (.outside 9) false
      = .ok (Iterator.cell 0, ⟨⟨[9, 1, 2, 3, 0, 0]⟩, 4, 6⟩) ∧
    Erase (⟨⟨[9, 1, 2, 3, 0, 0]⟩, 4, 6⟩ : SimpleVector Int) 0
      = .ok (Iterator.cell 0, ⟨⟨[1, 2, 3, 3, 0, 0]⟩, 3, 6⟩) ∧
    (∃ w1 w2, Insert (⟨⟨[1, 2, 3]⟩, 3, 3⟩ : SimpleVector Int) 0 (.outside 9) false
        = .ok (Iterator.cell 0, w1) ∧
      Erase w1 0 = .ok (Iterator.cell 0, w2) ∧
      w2.GetSize = (⟨⟨[1, 2, 3]⟩, 3, 3⟩ : SimpleVector Int).GetSize ∧
      w2.toList = (⟨⟨[1, 2, 3]⟩, 3, 3⟩ : SimpleVector Int).toList) ∧
    (∃ w1 w2, Insert (⟨⟨[1, 2, 0, 0]⟩, 2, 4⟩ : SimpleVector Int) 0 (.cell 1) false
        = .ok (Iterator.cell 0, w1) ∧
      Erase w1 0 = .ok (Iterator.cell 0, w2) ∧
      w2.GetSize = (⟨⟨[1, 2, 0, 0]⟩, 2, 4⟩ : SimpleVector Int).GetSize ∧
      w2.toList = (⟨⟨[1, 2, 0, 0]⟩, 2, 4⟩ : SimpleVector Int).toList) :=
  ⟨by decide, by decide,
   C8_Insert_Erase_round_trip (⟨⟨[1, 2, 3]⟩, 3, 3⟩ : SimpleVector Int) (.outside 9) false
    (by decide) (by decide) (by decide) (by decide) (by decide) (Or.inl ⟨9, rfl⟩),
   C8_Insert_Erase_round_trip (⟨⟨[1, 2, 0, 0]⟩, 2, 4⟩ : SimpleVector Int) (.cell 1) false
    (by decide) (by decide) (by decide) (by decide) (by decide)
    (Or.inr ⟨1, rfl, by decide, rfl, by decide⟩)⟩

/-! ## Resize and Reserve (C9, C10) -/

/-- On a vector whose buffer has `capacity` cells and holds the `size` live
elements, `Resize(n)` succeeds and gives size `n`; element `i` is the old element `i`
for `i < min(size, n)` and is `Type()` for `size <= i < n`, whatever the cells beyond
the old size held; the capacity is the old one when `n <= capacity` and exactly `n`
otherwise. -/
theorem Resize_result [CppType α] (v : SimpleVector α) (n : Nat)
    (hlen : v.items_.cells.length = v.capacity_) (hsz : v.size_ ≤ v.capacity_) :
    ∃ w, Resize v n = .ok w ∧ w.GetSize = n ∧
      (∀ i, i < min v.size_ n → (At w i).1 = (At v i).1 ∧ w.toList[i]? = v.toList[i]?) ∧
      (∀ i, v.size_ ≤ i → i < n → (At w i).1 = .ok CppType.value_init) ∧
      w.toList = v.toList.take n ++ List.replicate (n - v.size_) CppType.value_init ∧
      w.GetCapacity = (if n ≤ v.capacity_ then v.capacity_ else n) ∧
      w.items_.cells.length = w.GetCapacity := by
  by_cases hn : n ≤ v.size_
  · refine ⟨⟨v.items_, n, v.capacity_⟩, Resize_shrink v n hn, rfl, ?_, ?_, ?_, ?_, hlen⟩
    · intro i hi
      have a1 : i < n := by omega
      have a2 : i < v.size_ := by omega
      refine ⟨?_, ?_⟩
      · simp only [At, if_pos a1, if_pos a2]
      · rw [toList_getElem?, toList_getElem?]
        simp only
        rw [if_pos a1, if_pos a2]
    · intro i h1 h2
      omega
    · have a1 : n - v.size_ = 0 := by omega
      rw [a1]
      simp only [toList, List.replicate_zero, List.append_nil, List.take_take]
      rw [Nat.min_eq_left hn]
    · have a1 : n ≤ v.capacity_ := by omega
      simp only [GetCapacity, if_pos a1]
  · obtain ⟨q, hq, hql, hqj⟩ := Resize_grow v n hlen hsz (by omega)
    have hqn : n ≤ q.cells.length := by
      rw [hql]
      split_ifs <;> omega
    refine ⟨_, hq, rfl, ?_, ?_, ?_, rfl, hql⟩
    · intro i hi
      have a1 : i < n := by omega
      have a2 : i < v.size_ := by omega
      have a3 := hqj i a1
      rw [if_pos a2] at a3
      refine ⟨?_, ?_⟩
      · simp only [At, if_pos a1, if_pos a2, ArrayPtr.get, a3]
      · rw [toList_getElem?, toList_getElem?]
        simp only
        rw [if_pos a1, if_pos a2, a3]
    · intro i h1 h2
      have a2 : ¬ (i < v.size_) := by omega
      have a3 := hqj i h2
      rw [if_neg a2] at a3
      simp only [At, if_pos h2, ArrayPtr.get, a3]
    · apply List.ext_getElem?
      intro j
      have hvl : v.toList.length = v.size_ := toList_length v (by omega)
      have htl : (v.toList.take n).length = v.size_ := by
        rw [List.length_take, hvl]
        omega
      rw [toList_getElem?, List.getElem?_append, htl, List.getElem?_take, toList_getElem?,
        List.getElem?_replicate]
      simp only
      by_cases c1 : j < v.size_
      · have a1 : j < n := by omega
        have a3 := hqj j a1
        rw [if_pos c1] at a3
        rw [if_pos a1, if_pos c1, if_pos a1, if_pos c1, a3]
      · by_cases c2 : j < n
        · have a3 := hqj j c2
          rw [if_neg c1] at a3
          have a4 : j - v.size_ < n - v.size_ := by omega
          rw [if_pos c2, if_neg c1, if_pos a4, a3]
        · have a4 : ¬ (j - v.size_ < n - v.size_) := by omega
          rw [if_neg c2, if_neg c1, if_neg a4]

/-- The spec's example `Resize({1,2}, 4) = {1,2,0,0}`, and a vector with the
stale cells 5 and 6 beyond its size. -/
theorem Resize_result_example :
    Resize (⟨⟨[1, 2]⟩, 2, 2⟩ : SimpleVector Int) 4 = .ok ⟨⟨[1, 2, 0, 0]⟩, 4, 4⟩ ∧
    Resize (⟨⟨[1, 2, 5, 6]⟩, 2, 4⟩ : SimpleVector Int) 3 = .ok ⟨⟨[1, 2, 0, 6]⟩, 3, 4⟩ ∧
    ∃ w, Resize (⟨⟨[1, 2]⟩, 2, 2⟩ : SimpleVector Int) 4 = .ok w ∧ w.GetSize = 4 ∧
      (∀ i, i < min (2 : Nat) 4 →
        (At w i).1 = (At (⟨⟨[1, 2]⟩, 2, 2⟩ : SimpleVector Int) i).1 ∧
        w.toList[i]? = (⟨⟨[1, 2]⟩, 2, 2⟩ : SimpleVector Int).toList[i]?) ∧
      (∀ i, 2 ≤ i → i < 4 → (At w i).1 = .ok (CppType.value_init : Int)) ∧
      w.toList = (⟨⟨[1, 2]⟩, 2, 2⟩ : SimpleVector Int).toList.take 4
        ++ List.replicate (4 - 2) (CppType.value_init : Int) ∧
      w.GetCapacity = (if 4 ≤ 2 then 2 else 4) ∧
      w.items_.cells.length = w.GetCapacity :=
  ⟨by decide, by decide,
   Resize_result (⟨⟨[1, 2]⟩, 2, 2⟩ : SimpleVector Int) 4 (by decide) (by decide)⟩

/-- C9: `Resize` does not give the claimed result on every vector.
`SimpleVector<int> v(Reserve(3)); v.Resize(2)` has `size < 2 <= capacity`, takes the
in-place branch and lets `std::generate` write through the null buffer; and on the
vector that `a = b` leaves for `a = {1,2,3}`, `b = {7}` (size 1, capacity 3, a buffer of
one cell) `Resize(2)` writes outside the buffer.  Neither call ends with size 2. -/
theorem C9_Resize_writes_outside_the_buffer :
    ((with_reserve 3 : SimpleVector Int).GetSize = 0 ∧
      (with_reserve 3 : SimpleVector Int).GetCapacity = 3 ∧
      (with_reserve 3 : SimpleVector Int).toList = [] ∧
      Resize (with_reserve 3 : SimpleVector Int) 2 = .error .undefined_behaviour) ∧
    (assign (⟨⟨[1, 2, 3]⟩, 3, 3⟩ : SimpleVector Int) ⟨⟨[7]⟩, 1, 1⟩ = .ok ⟨⟨[7]⟩, 1, 3⟩ ∧
      Resize (⟨⟨[7]⟩, 1, 3⟩ : SimpleVector Int) 2 = .error .undefined_behaviour) := by
  refine ⟨⟨by decide, by decide, by decide, by decide⟩, by decide, by decide⟩

/-- C10: on a vector whose `size` live elements lie in its buffer and `size <= capacity`,
`Reserve(n)` succeeds, keeps the size and the elements `[0, size)`, and leaves capacity
`max(capacity, n)`; when `n <= capacity` the call returns the very same state, buffer
included, on every vector. -/
theorem C10_Reserve_frame [CppType α] (v : SimpleVector α) (n : Nat)
    (hbuf : v.size_ ≤ v.items_.cells.length) (hsz : v.size_ ≤ v.capacity_) :
    (∃ w, Reserve v n = .ok w ∧ w.GetSize = v.GetSize ∧ w.toList = v.toList ∧
      w.GetCapacity = max v.GetCapacity n) ∧
    (∀ u : SimpleVector α, n ≤ u.GetCapacity → Reserve u n = .ok u) := by
  refine ⟨?_, fun u hu => Reserve_noop u n hu⟩
  by_cases hn : n ≤ v.capacity_
  · refine ⟨v, Reserve_noop v n hn, rfl, rfl, ?_⟩
    simp only [GetCapacity]
    omega
  · obtain ⟨q, hq, _, hqj⟩ := Reserve_grow v n hbuf hsz (by omega)
    refine ⟨_, hq, rfl, ?_, ?_⟩
    · apply toList_congr
      · rfl
      · intro j hj
        simp only
        rw [hqj j, if_pos hj]
    · simp only [GetCapacity]
      omega

/-- C10 at `{1,2}` with capacity 2: `Reserve(5)` reallocates, `Reserve(1)` does nothing. -/
theorem C10_Reserve_frame_witness :
    Reserve (⟨⟨[1, 2]⟩, 2, 2⟩ : SimpleVector Int) 5 = .ok ⟨⟨[1, 2, 0, 0, 0]⟩, 2, 5⟩ ∧
    Reserve (⟨⟨[1, 2]⟩, 2, 2⟩ : SimpleVector Int) 1 = .ok ⟨⟨[1, 2]⟩, 2, 2⟩ ∧
    ((∃ w, Reserve (⟨⟨[1, 2]⟩, 2, 2⟩ : SimpleVector Int) 5 = .ok w ∧
        w.GetSize = (⟨⟨[1, 2]⟩, 2, 2⟩ : SimpleVector Int).GetSize ∧
        w.toList = (⟨⟨[1, 2]⟩, 2, 2⟩ : SimpleVector Int).toList ∧
        w.GetCapacity = max (⟨⟨[1, 2]⟩, 2, 2⟩ : SimpleVector Int).GetCapacity 5) ∧
      (∀ u : SimpleVector Int, 5 ≤ u.GetCapacity → Reserve u 5 = .ok u)) :=
  ⟨by decide, by decide,
   C10_Reserve_frame (⟨⟨[1, 2]⟩, 2, 2⟩ : SimpleVector Int) 5 (by decide) (by decide)⟩

/-! ## Lemmas on the constructors and the comparison loops -/

theorem cells_eq_of_getElem? {l : List α} {q : ArrayPtr α}
    (h : ∀ j : Nat, q.cells[j]? = l[j]?) : q = ⟨l⟩ := by
  cases q with
  | mk c =>
    have : c = l := List.ext_getElem? h
    rw [this]

theorem fill_cells_alloc [CppType α] (x : α) (n : Nat) :
    fill_cells x (ArrayPtr.alloc n : ArrayPtr α) 0 n = .ok ⟨List.replicate n x⟩ := by
  obtain ⟨q, hq, _, hj⟩ := fill_cells_spec x n (ArrayPtr.alloc n : ArrayPtr α) 0
    (by simp [ArrayPtr.alloc])
  rw [hq]
  congr 1
  apply cells_eq_of_getElem?
  intro j
  rw [hj j]
  simp only [ArrayPtr.alloc, List.getElem?_replicate]
  split_ifs <;> first
    | rfl
    | omega

theorem with_size_eq [CppType α] (n : Nat) :
    (with_size n : Except Fault (SimpleVector α))
      = .ok ⟨⟨List.replicate n CppType.value_init⟩, n, n⟩ := by
  simp only [with_size, generate, if_pos (Nat.zero_le n), Nat.sub_zero, fill_cells_alloc]

theorem with_value_eq [CppType α] (n : Nat) (value : α) :
    with_value n value = .ok ⟨⟨List.replicate n value⟩, n, n⟩ := by
  simp only [with_value, fill, if_pos (Nat.zero_le n), Nat.sub_zero, fill_cells_alloc]

theorem move_cells_alloc [CppType α] (src : ArrayPtr α) (n : Nat)
    (h : n ≤ src.cells.length) :
    move_cells src (ArrayPtr.alloc n : ArrayPtr α) 0 n = .ok ⟨src.cells.take n⟩ := by
  obtain ⟨q, hq, _, hj⟩ := move_cells_spec src n (ArrayPtr.alloc n : ArrayPtr α) 0
    (by omega) (by simp [ArrayPtr.alloc])
  rw [hq]
  congr 1
  apply cells_eq_of_getElem?
  intro j
  rw [hj j, List.getElem?_take]
  simp only [ArrayPtr.alloc, List.getElem?_replicate]
  split_ifs <;> first
    | rfl
    | omega

theorem of_list_eq [CppType α] (init : List α) :
    of_list init = .ok ⟨⟨init⟩, init.length, init.length⟩ := by
  simp only [of_list, move_cells_alloc ⟨init⟩ init.length (Nat.le_refl _), List.take_length]

theorem copy_eq [CppType α] (other : SimpleVector α)
    (h : other.size_ ≤ other.items_.cells.length) :
    copy other = .ok ⟨⟨other.toList⟩, other.size_, other.size_⟩ := by
  simp only [copy, move_cells_alloc other.items_ other.size_ h, toList]

theorem equal_loop_spec [BEq α] (p q : ArrayPtr α) : ∀ (n i : Nat),
    i + n ≤ p.cells.length → i + n ≤ q.cells.length →
    equal_loop p q i n = .ok ((p.cells.drop i).take n == (q.cells.drop i).take n) := by
  intro n
  induction n with
  | zero =>
    intro i _ _
    rfl
  | succ n ih =>
    intro i hp hq
    have hip : i < p.cells.length := by omega
    have hiq : i < q.cells.length := by omega
    rw [List.drop_eq_getElem_cons hip, List.drop_eq_getElem_cons hiq, List.take_succ_cons,
      List.take_succ_cons, List.cons_beq_cons]
    simp only [equal_loop, ArrayPtr.get_of_lt p hip, ArrayPtr.get_of_lt q hiq]
    rw [ih (i + 1) (by omega) (by omega)]
    cases p.cells[i] == q.cells[i] <;> rfl

theorem operator_eq_spec [BEq α] (a b : SimpleVector α)
    (ha : a.size_ ≤ a.items_.cells.length) (hb : b.size_ ≤ b.items_.cells.length) :
    operator_eq a b = .ok (decide (a.size_ = b.size_) && (a.toList == b.toList)) := by
  by_cases hs : a.size_ = b.size_
  · have h := equal_loop_spec a.items_ b.items_ a.size_ 0 (by omega) (by omega)
    simp only [List.drop_zero] at h
    simp only [operator_eq, std_equal, hs, ne_eq, not_true_eq_false, if_false, decide_True,
      Bool.true_and, toList]
    rw [← hs]
    exact h
  · simp [operator_eq, std_equal, hs]

theorem toList_eq_iff (a b : SimpleVector α)
    (ha : a.size_ ≤ a.items_.cells.length) (hb : b.size_ ≤ b.items_.cells.length) :
    a.toList = b.toList ↔
      a.size_ = b.size_ ∧ ∀ i, i < a.size_ → a.items_.cells[i]? = b.items_.cells[i]? := by
  constructor
  · intro h
    have hs : a.size_ = b.size_ := by
      rw [← toList_length a ha, ← toList_length b hb, h]
    refine ⟨hs, fun i hi => ?_⟩
    have := congrArg (fun l => l[i]?) h
    simp only [toList_getElem?] at this
    rw [if_pos hi, if_pos (by omega)] at this
    exact this
  · intro ⟨hs, h⟩
    exact (toList_congr b a hs (fun j hj => h j (by omega)))

theorem lex_precedes_nil_left [LinearOrder α] (l : List α) :
    lex_precedes [] l = decide (0 < l.length) := by
  cases l <;> simp [lex_precedes]

theorem lex_precedes_nil_right [LinearOrder α] (l : List α) :
    lex_precedes l [] = false := by
  cases l <;> simp [lex_precedes]

theorem lex_precedes_total [LinearOrder α] : ∀ (xs ys : List α),
    (!lex_precedes ys xs) = (lex_precedes xs ys || decide (xs = ys)) := by
  intro xs
  induction xs with
  | nil =>
    intro ys
    cases ys <;> simp [lex_precedes]
  | cons x xs ih =>
    intro ys
    cases ys with
    | nil => simp [lex_precedes]
    | cons y ys =>
      have h := ih ys
      rcases lt_trichotomy x y with hlt | heq | hgt
      · have h1 : ¬ y < x := not_lt.mpr (le_of_lt hlt)
        have h2 : ¬ y = x := fun e => absurd (e ▸ hlt) (lt_irrefl _)
        simp [lex_precedes, hlt, h1, h2]
      · subst heq
        simp only [lex_precedes, lt_irrefl, decide_False, Bool.false_or, decide_True,
          Bool.true_and, List.cons.injEq, true_and]
        exact h
      · have h1 : ¬ x < y := not_lt.mpr (le_of_lt hgt)
        have h2 : ¬ x = y := fun e => absurd (e ▸ hgt) (lt_irrefl _)
        simp [lex_precedes, hgt, h1, h2]

theorem lexicographical_compare_loop_spec [LinearOrder α] (p q : ArrayPtr α)
    (n1 n2 : Nat) (h1 : n1 ≤ p.cells.length) (h2 : n2 ≤ q.cells.length) :
    ∀ (n i : Nat), i ≤ n1 → i ≤ n2 → n = min (n1 - i) (n2 - i) →
    lexicographical_compare_loop p q n1 n2 i n
      = .ok (lex_precedes ((p.cells.drop i).take (n1 - i)) ((q.cells.drop i).take (n2 - i))) := by
  intro n
  induction n with
  | zero =>
    intro i hi1 hi2 hn
    simp only [lexicographical_compare_loop]
    congr 1
    by_cases c : i = n1
    · have e : n1 - i = 0 := by omega
      rw [e, List.take_zero, lex_precedes_nil_left]
      have hl : ((q.cells.drop i).take (n2 - i)).length = n2 - i := by
        rw [List.length_take, List.length_drop]
        omega
      rw [hl]
      have d1 : decide (i = n1) = true := decide_eq_true c
      by_cases c2 : i = n2
      · have d2 : decide (i = n2) = true := decide_eq_true c2
        have d3 : decide (0 < n2 - i) = false := decide_eq_false (by omega)
        rw [d1, d2, d3]
        rfl
      · have d2 : decide (i = n2) = false := decide_eq_false c2
        have d3 : decide (0 < n2 - i) = true := decide_eq_true (by omega)
        rw [d1, d2, d3]
        rfl
    · have e : n2 - i = 0 := by omega
      have d1 : decide (i = n1) = false := decide_eq_false c
      rw [e, List.take_zero, lex_precedes_nil_right, d1]
      rfl
  | succ n ih =>
    intro i hi1 hi2 hn
    have hip : i < p.cells.length := by omega
    have hiq : i < q.cells.length := by omega
    have e1 : n1 - i = (n1 - (i + 1)) + 1 := by omega
    have e2 : n2 - i = (n2 - (i + 1)) + 1 := by omega
    rw [List.drop_eq_getElem_cons hip, List.drop_eq_getElem_cons hiq, e1, e2,
      List.take_succ_cons, List.take_succ_cons]
    simp only [lexicographical_compare_loop, ArrayPtr.get_of_lt p hip,
      ArrayPtr.get_of_lt q hiq, lex_precedes]
    rw [ih (i + 1) (by omega) (by omega) (by omega)]
    rcases lt_trichotomy (p.cells[i]) (q.cells[i]) with hlt | heq | hgt
    · simp [hlt]
    · simp [heq]
    · have h3 : ¬ p.cells[i] < q.cells[i] := not_lt.mpr (le_of_lt hgt)
      have h4 : ¬ p.cells[i] = q.cells[i] := fun e => absurd (e ▸ hgt) (lt_irrefl _)
      simp [hgt, h3, h4]

theorem operator_lt_spec [LinearOrder α] (a b : SimpleVector α)
    (ha : a.size_ ≤ a.items_.cells.length) (hb : b.size_ ≤ b.items_.cells.length) :
    operator_lt a b = .ok (lex_precedes a.toList b.toList) := by
  have h := lexicographical_compare_loop_spec a.items_ b.items_ a.size_ b.size_ ha hb
    (min a.size_ b.size_) 0 (Nat.zero_le _) (Nat.zero_le _) (by simp)
  simp only [List.drop_zero, Nat.sub_zero] at h
  simp only [operator_lt, lexicographical_compare, toList]
  exact h

/-! ## Construction, assignment, move and swap (C11 to C15) -/

/-- C11: `SimpleVector(Reserve(3))` reports size 0 and capacity 3 but owns no storage
(`items_(nullptr)`), so pushing two values, fewer than the reserved three, writes
through the null pointer: the first `PushBack` sees `capacity_ != size_`, skips
`Reserve` and assigns to `*end()` outside any buffer. -/
theorem C11_reserve_constructor_allocates_nothing :
    (with_reserve 3 : SimpleVector Int).GetSize = 0 ∧
    (with_reserve 3 : SimpleVector Int).GetCapacity = 3 ∧
    (with_reserve 3 : SimpleVector Int).items_ = ArrayPtr.null ∧
    grow_if_full (with_reserve 3 : SimpleVector Int) = .ok (with_reserve 3) ∧
    PushBack_all false (with_reserve 3 : SimpleVector Int) [.outside 7, .outside 8]
      = .error .undefined_behaviour ∧
    PushBack_all true (with_reserve 3 : SimpleVector Int) [.outside 7, .outside 8]
      = .error .undefined_behaviour := by
  refine ⟨by decide, by decide, by decide, by decide, by decide, by decide⟩

/-- C12: `SimpleVector(n)` holds `n` values `Type()`, `SimpleVector(n, v)` holds `n`
copies of `v`, `SimpleVector(L)` holds the elements of `L` in order, and the copy
constructor applied to a vector `o` whose live elements lie in its buffer holds the
elements of `o`, compares `==` to `o` and leaves `o` as it was; in each case size and
capacity are the element count (for the copy: the size of `o`). -/
theorem C12_constructors [CppType α] [BEq α] [LawfulBEq α] (n : Nat) (value : α)
    (L : List α) (o : SimpleVector α) (ho : o.size_ ≤ o.items_.cells.length) :
    (∃ w, with_size n = .ok w ∧ w.GetSize = n ∧ w.GetCapacity = n ∧
      w.toList = List.replicate n (CppType.value_init : α)) ∧
    (∃ w, with_value n value = .ok w ∧ w.GetSize = n ∧ w.GetCapacity = n ∧
      w.toList = List.replicate n value) ∧
    (∃ w, of_list L = .ok w ∧ w.GetSize = L.length ∧ w.GetCapacity = L.length ∧
      w.toList = L) ∧
    (∃ w, copy_construct o = .ok (w, o) ∧ w.GetSize = o.GetSize ∧
      w.GetCapacity = o.GetSize ∧ w.toList = o.toList ∧ operator_eq w o = .ok true) := by
  refine ⟨⟨_, with_size_eq n, rfl, rfl, ?_⟩, ⟨_, with_value_eq n value, rfl, rfl, ?_⟩,
    ⟨_, of_list_eq L, rfl, rfl, ?_⟩, ⟨⟨⟨o.toList⟩, o.size_, o.size_⟩, ?_, rfl, rfl, ?_, ?_⟩⟩
  · simp [toList]
  · simp [toList]
  · simp [toList]
  · simp only [copy_construct, copy_eq o ho]
  · simp [toList]
  · have hl : o.toList.length = o.size_ := toList_length o ho
    have ht : (⟨⟨o.toList⟩, o.size_, o.size_⟩ : SimpleVector α).toList = o.toList := by
      simp [toList]
    rw [operator_eq_spec _ o (by simp only; omega) ho, ht]
    simp

/-- C12 at the spec's example: `{1,2,3}` gives size 3, capacity 3 and the elements
1, 2, 3; the copy is taken of a vector with capacity 5. -/
theorem C12_constructors_witness :
    of_list [1, 2, 3] = .ok (⟨⟨[1, 2, 3]⟩, 3, 3⟩ : SimpleVector Int) ∧
    copy_construct (⟨⟨[1, 2, 3, 8, 9]⟩, 3, 5⟩ : SimpleVector Int)
      = .ok (⟨⟨[1, 2, 3]⟩, 3, 3⟩, ⟨⟨[1, 2, 3, 8, 9]⟩, 3, 5⟩) ∧
    ((∃ w, with_size 2 = .ok w ∧ w.GetSize = 2 ∧ w.GetCapacity = 2 ∧
        w.toList = List.replicate 2 (CppType.value_init : Int)) ∧
      (∃ w, with_value 2 (7 : Int) = .ok w ∧ w.GetSize = 2 ∧ w.GetCapacity = 2 ∧
        w.toList = List.replicate 2 7) ∧
      (∃ w, of_list ([1, 2, 3] : List Int) = .ok w ∧ w.GetSize = [1, 2, 3].length ∧
        w.GetCapacity = [1, 2, 3].length ∧ w.toList = [1, 2, 3]) ∧
      (∃ w, copy_construct (⟨⟨[1, 2, 3, 8, 9]⟩, 3, 5⟩ : SimpleVector Int)
          = .ok (w, ⟨⟨[1, 2, 3, 8, 9]⟩, 3, 5⟩) ∧
        w.GetSize = (⟨⟨[1, 2, 3, 8, 9]⟩, 3, 5⟩ : SimpleVector Int).GetSize ∧
        w.GetCapacity = (⟨⟨[1, 2, 3, 8, 9]⟩, 3, 5⟩ : SimpleVector Int).GetSize ∧
        w.toList = (⟨⟨[1, 2, 3, 8, 9]⟩, 3, 5⟩ : SimpleVector Int).toList ∧
        operator_eq w ⟨⟨[1, 2, 3, 8, 9]⟩, 3, 5⟩ = .ok true)) :=
  ⟨by decide, by decide,
   C12_constructors 2 (7 : Int) [1, 2, 3] ⟨⟨[1, 2, 3, 8, 9]⟩, 3, 5⟩ (by decide)⟩

/-- C13: copy assignment does not always leave capacity equal to the size of the
right-hand side.  With `a = {1,2,3}` and `b = {7}`, `a = b` shrinks `a` to size 1
without touching `capacity_`, then swaps in the one-cell buffer of a copy of `b`:
`a` ends with size 1, capacity 3 and a buffer of one cell, and the next `PushBack`
writes outside it. -/
theorem C13_assign_keeps_old_capacity :
    assign (⟨⟨[1, 2, 3]⟩, 3, 3⟩ : SimpleVector Int) ⟨⟨[7]⟩, 1, 1⟩ = .ok ⟨⟨[7]⟩, 1, 3⟩ ∧
    (⟨⟨[7]⟩, 1, 3⟩ : SimpleVector Int).GetCapacity ≠
      (⟨⟨[7]⟩, 1, 1⟩ : SimpleVector Int).GetSize ∧
    (⟨⟨[7]⟩, 1, 3⟩ : SimpleVector Int).GetCapacity ≠
      (⟨⟨[7]⟩, 1, 3⟩ : SimpleVector Int).items_.cells.length ∧
    PushBack (⟨⟨[7]⟩, 1, 3⟩ : SimpleVector Int) (.outside 5) false
      = .error .undefined_behaviour ∧
    PushBack (⟨⟨[7]⟩, 1, 3⟩ : SimpleVector Int) (.outside 5) true
      = .error .undefined_behaviour := by
  refine ⟨by decide, by decide, by decide, by decide, by decide⟩

/-- C14: move construction gives the new vector the size, the capacity and the buffer
(hence the elements) of `o`, and leaves `o` with size 0, capacity 0 and no buffer. -/
theorem C14_move_construct (o : SimpleVector α) :
    (move_construct o).1.GetSize = o.GetSize ∧
    (move_construct o).1.GetCapacity = o.GetCapacity ∧
    (move_construct o).1.items_ = o.items_ ∧
    (move_construct o).1.toList = o.toList ∧
    (move_construct o).2.GetSize = 0 ∧
    (move_construct o).2.GetCapacity = 0 ∧
    (move_construct o).2.items_.cells = [] :=
  ⟨rfl, rfl, rfl, rfl, rfl, rfl, rfl⟩

/-- C15: after `a.swap(b)` the vector `a` has the size, capacity and buffer that `b`
had and `b` has those that `a` had; swapping twice restores both. -/
theorem C15_swap (a b : SimpleVector α) :
    (swap a b).1 = b ∧ (swap a b).2 = a ∧
    (swap a b).1.GetSize = b.GetSize ∧ (swap a b).1.GetCapacity = b.GetCapacity ∧
    (swap a b).1.toList = b.toList ∧
    (swap a b).2.GetSize = a.GetSize ∧ (swap a b).2.GetCapacity = a.GetCapacity ∧
    (swap a b).2.toList = a.toList ∧
    swap (swap a b).1 (swap a b).2 = (a, b) :=
  ⟨rfl, rfl, rfl, rfl, rfl, rfl, rfl, rfl, rfl⟩

/-! ## Comparison operators (C16, C17) -/

/-- C16: for vectors whose live elements lie in their buffers, `a == b` returns a truth
value that is `true` exactly when the sizes are equal and the elements are pairwise
equal over `[0, size)`; any pair of vectors with the same live elements, whatever their
capacities and the cells beyond their sizes, gets the same answer; and `a != b` is the
negation. -/
theorem C16_equality [BEq α] [LawfulBEq α] (a b : SimpleVector α)
    (ha : a.size_ ≤ a.items_.cells.length) (hb : b.size_ ≤ b.items_.cells.length) :
    ∃ r, operator_eq a b = .ok r ∧
      (r = true ↔ a.GetSize = b.GetSize ∧
        ∀ i, i < a.GetSize → a.items_.cells[i]? = b.items_.cells[i]?) ∧
      (∀ a2 b2 : SimpleVector α, a2.size_ ≤ a2.items_.cells.length →
        b2.size_ ≤ b2.items_.cells.length → a2.toList = a.toList → b2.toList = b.toList →
        operator_eq a2 b2 = .ok r) ∧
      operator_ne a b = .ok (!r) := by
  have key : ∀ x y : SimpleVector α, x.size_ ≤ x.items_.cells.length →
      y.size_ ≤ y.items_.cells.length →
      operator_eq x y = .ok (x.toList == y.toList) := by
    intro x y hx hy
    rw [operator_eq_spec x y hx hy]
    congr 1
    by_cases h : x.toList = y.toList
    · have hs : x.size_ = y.size_ := ((toList_eq_iff x y hx hy).mp h).1
      simp [h, hs]
    · have h2 : (x.toList == y.toList) = false := by
        rw [← Bool.not_eq_true, beq_iff_eq]
        exact h
      rw [h2, Bool.and_false]
  refine ⟨a.toList == b.toList, key a b ha hb, ?_, ?_, ?_⟩
  · rw [beq_iff_eq]
    exact toList_eq_iff a b ha hb
  · intro a2 b2 ha2 hb2 e1 e2
    rw [key a2 b2 ha2 hb2, e1, e2]
  · simp only [operator_ne, key a b ha hb]

/-- C16 at the spec's example: `{1,2} == {1,2}` with capacities 2 and 5 and stale cells
in the second vector. -/
theorem C16_equality_witness :
    operator_eq (⟨⟨[1, 2]⟩, 2, 2⟩ : SimpleVector Int) ⟨⟨[1, 2, 8, 9, 9]⟩, 2, 5⟩ = .ok true ∧
    operator_ne (⟨⟨[1, 2]⟩, 2, 2⟩ : SimpleVector Int) ⟨⟨[1, 2, 8, 9, 9]⟩, 2, 5⟩ = .ok false ∧
    ∃ r, operator_eq (⟨⟨[1, 2]⟩, 2, 2⟩ : SimpleVector Int) ⟨⟨[1, 2, 8, 9, 9]⟩, 2, 5⟩
        = .ok r ∧
      (r = true ↔ (⟨⟨[1, 2]⟩, 2, 2⟩ : SimpleVector Int).GetSize
          = (⟨⟨[1, 2, 8, 9, 9]⟩, 2, 5⟩ : SimpleVector Int).GetSize ∧
        ∀ i, i < (⟨⟨[1, 2]⟩, 2, 2⟩ : SimpleVector Int).GetSize →
          (⟨⟨[1, 2]⟩, 2, 2⟩ : SimpleVector Int).items_.cells[i]?
            = (⟨⟨[1, 2, 8, 9, 9]⟩, 2, 5⟩ : SimpleVector Int).items_.cells[i]?) ∧
      (∀ a2 b2 : SimpleVector Int, a2.size_ ≤ a2.items_.cells.length →
        b2.size_ ≤ b2.items_.cells.length →
        a2.toList = (⟨⟨[1, 2]⟩, 2, 2⟩ : SimpleVector Int).toList →
        b2.toList = (⟨⟨[1, 2, 8, 9, 9]⟩, 2, 5⟩ : SimpleVector Int).toList →
        operator_eq a2 b2 = .ok r) ∧
      operator_ne (⟨⟨[1, 2]⟩, 2, 2⟩ : SimpleVector Int) ⟨⟨[1, 2, 8, 9, 9]⟩, 2, 5⟩
        = .ok (!r) :=
  ⟨by decide, by decide,
   C16_equality (⟨⟨[1, 2]⟩, 2, 2⟩ : SimpleVector Int) ⟨⟨[1, 2, 8, 9, 9]⟩, 2, 5⟩
    (by decide) (by decide)⟩

/-- C17: over a linearly ordered element type, for vectors whose live elements lie in
their buffers, `a < b` returns whether the sequence of `a` lexicographically precedes
that of `b` (a proper prefix is smaller); `a > b` is `b < a`; `a <= b` is true exactly
when `a < b` or `a == b` is; `a >= b` is true exactly when `a > b` or `a == b` is. -/
theorem C17_ordering [LinearOrder α] (a b : SimpleVector α)
    (ha : a.size_ ≤ a.items_.cells.length) (hb : b.size_ ≤ b.items_.cells.length) :
    ∃ lt gt le ge eq,
      operator_lt a b = .ok lt ∧ operator_gt a b = .ok gt ∧ operator_le a b = .ok le ∧
      operator_ge a b = .ok ge ∧ operator_eq a b = .ok eq ∧
      lt = lex_precedes a.toList b.toList ∧
      operator_lt b a = .ok gt ∧
      (le = true ↔ lt = true ∨ eq = true) ∧
      (ge = true ↔ gt = true ∨ eq = true) := by
  have hlt := operator_lt_spec a b ha hb
  have hgt := operator_lt_spec b a hb ha
  have heq : operator_eq a b = .ok (decide (a.toList = b.toList)) := by
    rw [operator_eq_spec a b ha hb]
    congr 1
    by_cases h : a.toList = b.toList
    · have hs : a.size_ = b.size_ := ((toList_eq_iff a b ha hb).mp h).1
      simp [h, hs]
    · simp [h]
  refine ⟨lex_precedes a.toList b.toList, lex_precedes b.toList a.toList,
    !lex_precedes b.toList a.toList, !lex_precedes a.toList b.toList,
    decide (a.toList = b.toList), hlt, ?_, ?_, ?_, heq, rfl, hgt, ?_, ?_⟩
  · simp only [operator_gt, hgt]
  · simp only [operator_le, operator_gt, hgt]
  · simp only [operator_ge, operator_le, operator_gt, hlt]
  · rw [lex_precedes_total a.toList b.toList, Bool.or_eq_true]
  · rw [lex_precedes_total b.toList a.toList, Bool.or_eq_true, decide_eq_true_iff,
      decide_eq_true_iff]
    constructor
    · rintro (h | h)
      · exact Or.inl h
      · exact Or.inr h.symm
    · rintro (h | h)
      · exact Or.inl h
      · exact Or.inr h.symm

/-- C17 at the spec's examples: `{1,2} < {1,2,3}` and `{1,3} > {1,2,9}`. -/
theorem C17_ordering_witness :
    operator_lt (⟨⟨[1, 2]⟩, 2, 2⟩ : SimpleVector Int) ⟨⟨[1, 2, 3]⟩, 3, 3⟩ = .ok true ∧
    operator_gt (⟨⟨[1, 3]⟩, 2, 2⟩ : SimpleVector Int) ⟨⟨[1, 2, 9]⟩, 3, 3⟩ = .ok true ∧
    ∃ lt gt le ge eq,
      operator_lt (⟨⟨[1, 3]⟩, 2, 2⟩ : SimpleVector Int) ⟨⟨[1, 2, 9]⟩, 3, 3⟩ = .ok lt ∧
      operator_gt (⟨⟨[1, 3]⟩, 2, 2⟩ : SimpleVector Int) ⟨⟨[1, 2, 9]⟩, 3, 3⟩ = .ok gt ∧
      operator_le (⟨⟨[1, 3]⟩, 2, 2⟩ : SimpleVector Int) ⟨⟨[1, 2, 9]⟩, 3, 3⟩ = .ok le ∧
      operator_ge (⟨⟨[1, 3]⟩, 2, 2⟩ : SimpleVector Int) ⟨⟨[1, 2, 9]⟩, 3, 3⟩ = .ok ge ∧
      operator_eq (⟨⟨[1, 3]⟩, 2, 2⟩ : SimpleVector Int) ⟨⟨[1, 2, 9]⟩, 3, 3⟩ = .ok eq ∧
      lt = lex_precedes (⟨⟨[1, 3]⟩, 2, 2⟩ : SimpleVector Int).toList
        (⟨⟨[1, 2, 9]⟩, 3, 3⟩ : SimpleVector Int).toList ∧
      operator_lt (⟨⟨[1, 2, 9]⟩, 3, 3⟩ : SimpleVector Int) ⟨⟨[1, 3]⟩, 2, 2⟩ = .ok gt ∧
      (le = true ↔ lt = true ∨ eq = true) ∧
      (ge = true ↔ gt = true ∨ eq = true) :=
  ⟨by decide, by decide,
   C17_ordering (⟨⟨[1, 3]⟩, 2, 2⟩ : SimpleVector Int) ⟨⟨[1, 2, 9]⟩, 3, 3⟩
    (by decide) (by decide)⟩

/-! ## PopBack and Erase at `end()` (C18 to C20) -/

/-- C18: `PopBack()` always returns; on a vector with `size > 0` it lowers the size by
one and leaves the capacity, the buffer and with it the elements `[0, size - 1)` as
they were; on a vector with `size = 0` it leaves the whole state, so the size stays 0
and the capacity is unchanged. -/
theorem C18_PopBack (v : SimpleVector α) (hmod : v.size_ < SIZE_MOD) :
    (0 < v.size_ →
      (PopBack v).GetSize = v.GetSize - 1 ∧
      (PopBack v).GetCapacity = v.GetCapacity ∧
      (PopBack v).items_ = v.items_ ∧
      (PopBack v).toList = v.toList.take (v.size_ - 1) ∧
      ∀ i, i < v.size_ - 1 → (PopBack v).toList[i]? = v.toList[i]?) ∧
    (v.size_ = 0 →
      PopBack v = v ∧ (PopBack v).GetSize = 0 ∧ (PopBack v).GetCapacity = v.GetCapacity) := by
  constructor
  · intro hpos
    have hne : v.size_ ≠ 0 := by omega
    have e : (v.size_ + SIZE_MOD - 1) % SIZE_MOD = v.size_ - 1 :=
      size_t_dec (by omega) (by omega)
    have hp : PopBack v = ⟨v.items_, v.size_ - 1, v.capacity_⟩ := by
      simp only [PopBack, if_pos hne, e]
    rw [hp]
    refine ⟨rfl, rfl, rfl, ?_, ?_⟩
    · simp only [toList, List.take_take]
      rw [Nat.min_eq_left (Nat.sub_le _ _)]
    · intro i hi
      rw [toList_getElem?, toList_getElem?]
      simp only
      rw [if_pos hi, if_pos (by omega)]
  · intro h0
    have hp : PopBack v = v := by
      simp only [PopBack, h0, ne_eq, not_true_eq_false, if_false]
    rw [hp]
    exact ⟨rfl, h0, rfl⟩

/-- C18 at `{1,2,3}` and at an empty vector with capacity 2. -/
theorem C18_PopBack_witness :
    PopBack (⟨⟨[1, 2, 3]⟩, 3, 3⟩ : SimpleVector Int) = ⟨⟨[1, 2, 3]⟩, 2, 3⟩ ∧
    PopBack (⟨⟨[4, 5]⟩, 0, 2⟩ : SimpleVector Int) = ⟨⟨[4, 5]⟩, 0, 2⟩ ∧
    ((PopBack (⟨⟨[1, 2, 3]⟩, 3, 3⟩ : SimpleVector Int)).GetSize
        = (⟨⟨[1, 2, 3]⟩, 3, 3⟩ : SimpleVector Int).GetSize - 1 ∧
      (PopBack (⟨⟨[1, 2, 3]⟩, 3, 3⟩ : SimpleVector Int)).GetCapacity
        = (⟨⟨[1, 2, 3]⟩, 3, 3⟩ : SimpleVector Int).GetCapacity ∧
      (PopBack (⟨⟨[1, 2, 3]⟩, 3, 3⟩ : SimpleVector Int)).items_ = ⟨[1, 2, 3]⟩ ∧
      (PopBack (⟨⟨[1, 2, 3]⟩, 3, 3⟩ : SimpleVector Int)).toList
        = (⟨⟨[1, 2, 3]⟩, 3, 3⟩ : SimpleVector Int).toList.take (3 - 1) ∧
      ∀ i, i < 3 - 1 → (PopBack (⟨⟨[1, 2, 3]⟩, 3, 3⟩ : SimpleVector Int)).toList[i]?
        = (⟨⟨[1, 2, 3]⟩, 3, 3⟩ : SimpleVector Int).toList[i]?) ∧
    (PopBack (⟨⟨[4, 5]⟩, 0, 2⟩ : SimpleVector Int) = ⟨⟨[4, 5]⟩, 0, 2⟩ ∧
      (PopBack (⟨⟨[4, 5]⟩, 0, 2⟩ : SimpleVector Int)).GetSize = 0 ∧
      (PopBack (⟨⟨[4, 5]⟩, 0, 2⟩ : SimpleVector Int)).GetCapacity
        = (⟨⟨[4, 5]⟩, 0, 2⟩ : SimpleVector Int).GetCapacity) :=
  ⟨by decide, by decide,
   (C18_PopBack (⟨⟨[1, 2, 3]⟩, 3, 3⟩ : SimpleVector Int) (by decide)).1 (by decide),
   (C18_PopBack (⟨⟨[4, 5]⟩, 0, 2⟩ : SimpleVector Int) (by decide)).2 (by decide)⟩

/-- C19: at the accepted position `end()` the iterator that `Erase` returns lies past
the new `end()`.  On `{1,2}`, `Erase(end())` returns `begin() + 2` and leaves size 1,
so the new `end()` is `begin() + 1`: the returned iterator is neither the new `end()`
nor the address of a live element. -/
theorem C19_Erase_at_end_returns_past_the_end :
    Erase (⟨⟨[1, 2]⟩, 2, 2⟩ : SimpleVector Int) 2
      = .ok (Iterator.cell 2, ⟨⟨[1, 2]⟩, 1, 2⟩) ∧
    end_iter (⟨⟨[1, 2]⟩, 2, 2⟩ : SimpleVector Int) = Iterator.cell 2 ∧
    end_iter (⟨⟨[1, 2]⟩, 1, 2⟩ : SimpleVector Int) = Iterator.cell 1 ∧
    Iterator.cell 2 ≠ end_iter (⟨⟨[1, 2]⟩, 1, 2⟩ : SimpleVector Int) ∧
    (⟨⟨[1, 2]⟩, 1, 2⟩ : SimpleVector Int).toList[2]? = none ∧
    (⟨⟨[1, 2]⟩, 1, 2⟩ : SimpleVector Int).items_.cells[2]? = none := by
  refine ⟨by decide, by decide, by decide, by decide, by decide, by decide⟩

/-- C20: on a non-empty vector `Erase(end())` is accepted: it returns the non-null
iterator `begin() + size` and leaves exactly the state that `PopBack()` leaves, hence
the same size, capacity and elements.  The size is at most `2 ^ 64 - 2`, so that
`pos_n + 1` is a `size_t`. -/
theorem C20_Erase_at_end_is_PopBack [CppType α] (v : SimpleVector α)
    (hpos : 0 < v.size_) (hmod : v.size_ + 1 < SIZE_MOD) :
    ∃ it w, Erase v (v.size_ : Int) = .ok (it, w) ∧ it ≠ Iterator.null ∧
      w = PopBack v ∧
      w.GetSize = (PopBack v).GetSize ∧ w.GetCapacity = (PopBack v).GetCapacity ∧
      w.toList = (PopBack v).toList ∧
      w.GetSize = v.GetSize - 1 := by
  have hne : v.size_ ≠ 0 := by omega
  have e : (v.size_ + SIZE_MOD - 1) % SIZE_MOD = v.size_ - 1 :=
    size_t_dec (by omega) (by omega)
  have hp : PopBack v = ⟨v.items_, v.size_ - 1, v.capacity_⟩ := by
    simp only [PopBack, if_pos hne, e]
  have hptr : ptr_at v.items_ v.size_ = Iterator.cell v.size_ := by
    simp [ptr_at, hne]
  have hE := Erase_at_end v hmod
  rw [e, hptr] at hE
  rw [hp]
  clear e hmod hp
  exact ⟨Iterator.cell v.size_, ⟨v.items_, v.size_ - 1, v.capacity_⟩, hE,
    Iterator.noConfusion, rfl, rfl, rfl, rfl, rfl⟩

/-- C20 at `{1,2,3}`. -/
theorem C20_Erase_at_end_is_PopBack_witness :
    Erase (⟨⟨[1, 2, 3]⟩, 3, 3⟩ : SimpleVector Int) 3
      = .ok (Iterator.cell 3, ⟨⟨[1, 2, 3]⟩, 2, 3⟩) ∧
    PopBack (⟨⟨[1, 2, 3]⟩, 3, 3⟩ : SimpleVector Int) = ⟨⟨[1, 2, 3]⟩, 2, 3⟩ ∧
    ∃ it w, Erase (⟨⟨[1, 2, 3]⟩, 3, 3⟩ : SimpleVector Int) ((3 : Nat) : Int) = .ok (it, w) ∧
      it ≠ Iterator.null ∧
      w = PopBack (⟨⟨[1, 2, 3]⟩, 3, 3⟩ : SimpleVector Int) ∧
      w.GetSize = (PopBack (⟨⟨[1, 2, 3]⟩, 3, 3⟩ : SimpleVector Int)).GetSize ∧
      w.GetCapacity = (PopBack (⟨⟨[1, 2, 3]⟩, 3, 3⟩ : SimpleVector Int)).GetCapacity ∧
      w.toList = (PopBack (⟨⟨[1, 2, 3]⟩, 3, 3⟩ : SimpleVector Int)).toList ∧
      w.GetSize = (⟨⟨[1, 2, 3]⟩, 3, 3⟩ : SimpleVector Int).GetSize - 1 :=
  ⟨by decide, by decide,
   C20_Erase_at_end_is_PopBack (⟨⟨[1, 2, 3]⟩, 3, 3⟩ : SimpleVector Int) (by decide)
    (by decide)⟩

end SimpleVector

end SimpleVectorModel
